import Mathlib

/-!
# Verification of the log relevance extractor

A shallow embedding of `tests/log_relevance_extractor.py`: the quote-aware
delimiter scanner, the record locator (`_parse_document_list`), the field
extractor, the line classifier (`parse_log_content`,
`handle_malformed_entries`), and the serialization layer (`format_as_json`,
`format_as_csv`).

Strings are modelled as `List Char` (one Python character per list element).
Python floats are modelled as exact decimals (`Dec` below); the float values
occurring in this module are produced by `float(...)` applied to decimal
literals matched out of log text, which is exact decimal arithmetic.
Loops that walk a cursor over a string are modelled with an explicit fuel
parameter initialized to more than the string length, which the cursor-advance
arguments below prove sufficient; totality of the Lean definitions together
with the fuel-stability lemmas renders the termination behaviour of the
original loops.
-/

set_option maxRecDepth 100000

/-! ## Character constants

Quote, backslash and brace characters, by code point. -/

def sqc : Char := Char.ofNat 39

def dqc : Char := Char.ofNat 34

def bslc : Char := Char.ofNat 92

def lbc : Char := Char.ofNat 123

def rbc : Char := Char.ofNat 125

def nlc : Char := Char.ofNat 10

def crc : Char := Char.ofNat 13

/-! ## Basic list utilities -/

/-- `s[i]` as an option, mirroring Python indexing used by the scanners. -/
def charAt : List Char → Nat → Option Char
  | [], _ => none
  | c :: _, 0 => some c
  | _ :: t, n + 1 => charAt t n

/-- Index of the first occurrence of `pat` in `l` (Python `str.find` when the
needle is present, `None` when absent). -/
def firstOccur (pat : List Char) : List Char → Option Nat
  | [] => if pat.isEmpty then some 0 else none
  | l@(_ :: t) =>
    if pat.isPrefixOf l then some 0 else (firstOccur pat t).map (· + 1)

/-- `str.find(sub)` from index 0. -/
def findSub (l pat : List Char) : Option Nat := firstOccur pat l

/-- Python's `sub in line`. -/
def containsSub (l pat : List Char) : Bool := (firstOccur pat l).isSome

/-- Python `str.split('\n')`. -/
def splitLines : List Char → List (List Char)
  | [] => [[]]
  | c :: t =>
    if c = nlc then [] :: splitLines t
    else
      match splitLines t with
      | [] => [[c]]
      | l :: ls => (c :: l) :: ls

/-- Python `\s` character class (ASCII part, which is all the log contains). -/
def pyIsSpace (c : Char) : Bool :=
  c = ' ' ∨ c = '\t' ∨ c = nlc ∨ c = crc ∨ c = Char.ofNat 11 ∨ c = Char.ofNat 12

/-! ## The quote-aware delimiter scanner

The bracket-counting loop that appears (inlined) in
`_extract_relevance_scores_from_line`, `handle_malformed_entries` and
`_parse_document_list`, parameterized by the delimiter pair.  `prev` is the
character before the current position (`line[pos-1]`; `none` models `pos == 0`),
`inStr` the `in_string`/`string_quote` state, `depth` the current count.
It returns the number of characters consumed up to and including the closing
delimiter that balances the initial `depth`, or `none` when the text ends
with the depth still positive. -/

def scanDelim (openC closeC : Char) :
    List Char → Option Char → Option Char → Nat → Option Nat
  | [], _, _, _ => none
  | ch :: rest, prev, inStr, depth =>
    if (ch = dqc ∨ ch = sqc) ∧ prev ≠ some bslc then
      match inStr with
      | some q =>
        if ch = q then
          (scanDelim openC closeC rest (some ch) none depth).map (· + 1)
        else
          (scanDelim openC closeC rest (some ch) (some q) depth).map (· + 1)
      | none => (scanDelim openC closeC rest (some ch) (some ch) depth).map (· + 1)
    else if inStr = none ∧ ch = openC then
      (scanDelim openC closeC rest (some ch) none (depth + 1)).map (· + 1)
    else if inStr = none ∧ ch = closeC then
      if depth = 1 then some 1
      else (scanDelim openC closeC rest (some ch) none (depth - 1)).map (· + 1)
    else (scanDelim openC closeC rest (some ch) inStr depth).map (· + 1)

/-! ## Exact decimals standing for Python floats -/

/-- An exact decimal number `mant / 10 ^ exp`, the model of the Python floats
this module produces (all of them are `float(...)` of decimal literals). -/
structure Dec where
  mant : Int
  exp : Nat
deriving DecidableEq, Repr

def Dec.toRat (d : Dec) : ℚ := (d.mant : ℚ) / ((10 : ℚ) ^ d.exp)

/-- Numeric value of a most-significant-first digit string. -/
def digitsToNat (l : List Char) : Nat :=
  l.foldl (fun a c => a * 10 + (c.toNat - 48)) 0

def mkDec (neg : Bool) (ip fp : List Char) : Dec :=
  let n : Nat := digitsToNat ip * 10 ^ fp.length + digitsToNat fp
  ⟨if neg then -(n : Int) else (n : Int), fp.length⟩

/-- Python `float(...)` on the strings this module feeds it: an optional
sign, an integer digit run, an optional `.` plus fractional digit run;
at least one digit in total, nothing left over.  Anything else (for example
several dots, as `[0-9.]+` can deliver) raises `ValueError`, i.e. `none`. -/
def pyFloat (s : List Char) : Option Dec :=
  let signed : Bool × List Char :=
    match s with
    | c :: t => if c = '-' then (true, t) else if c = '+' then (false, t) else (false, s)
    | [] => (false, s)
  let neg := signed.1
  let s1 := signed.2
  let ip := s1.takeWhile Char.isDigit
  match s1.drop ip.length with
  | [] => if ip = [] then none else some (mkDec neg ip [])
  | c :: t =>
    if c = '.' then
      let fp := t.takeWhile Char.isDigit
      if t.drop fp.length = [] ∧ (ip ≠ [] ∨ fp ≠ []) then some (mkDec neg ip fp)
      else none
    else none

/-- The score pattern `re.match(r'([-+]?\d*\.?\d+)', remaining)`: with
Python's greedy backtracking this matches an optional sign, then either
`digits '.' digits`, or just `digits`, or `'.' digits`, whichever applies
first at the anchor; the digit runs are maximal. -/
def matchDecimal (s : List Char) : Option (List Char) :=
  let signed : List Char × List Char :=
    match s with
    | c :: t => if c = '-' ∨ c = '+' then ([c], t) else ([], s)
    | [] => ([], s)
  let sgn := signed.1
  let s1 := signed.2
  let ds := s1.takeWhile Char.isDigit
  match s1.drop ds.length with
  | c :: t =>
    if c = '.' then
      let fs := t.takeWhile Char.isDigit
      if fs ≠ [] then some (sgn ++ ds ++ '.' :: fs)
      else if ds ≠ [] then some (sgn ++ ds) else none
    else if ds ≠ [] then some (sgn ++ ds) else none
  | [] => if ds ≠ [] then some (sgn ++ ds) else none

/-! ## Literal patterns from `_setup_patterns` and the parsing code -/

def relevancePhrase : List Char := "Relevance scores must be between 0 and 1".toList

/-- `relevance_warning_start_pattern`, a literal: the phrase plus `, got [`. -/
def relevance_warning_start : List Char :=
  "Relevance scores must be between 0 and 1, got [".toList

def docMarker : List Char := "Document(".toList

def thresholdPhrase : List Char := "No relevant docs were retrieved".toList

def thresholdLit : List Char :=
  "No relevant docs were retrieved using the relevance score threshold ".toList

def pageContentSq : List Char := "page_content=".toList ++ [sqc]

def pageContentDq : List Char := "page_content=".toList ++ [dqc]

def metaLit : List Char := "metadata=".toList

def sourceLit : List Char := sqc :: "source".toList ++ [sqc, ':']

def idLit : List Char := sqc :: "id".toList ++ [sqc, ':']

def seqLit : List Char := sqc :: "seq_num".toList ++ [sqc, ':']

def qualityLit : List Char := sqc :: "quality_score".toList ++ [sqc, ':']

/-! ## Field extractor: the individual regex probes -/

/-- `re.search(r"page_content='((?:[^']|\\')*?)'", ...)` and its double-quote
twin.  With the lazy `*?` and `[^q]` listed first, the group the Python engine
actually captures is the run of characters strictly before the *first*
occurrence of the quote `q` after the literal — an escaping backslash is
consumed by `[^q]` and the engine then closes at the quote, so escaped quotes
do **not** extend the match.  The whole match fails (and the search resumes one
position further right) when no closing quote follows. -/
def searchQuoted (lit : List Char) (q : Char) : List Char → Option (List Char)
  | [] => none
  | l@(_ :: t) =>
    if lit.isPrefixOf l then
      let rest := l.drop lit.length
      let g := rest.takeWhile (· ≠ q)
      if g.length < rest.length then some g else searchQuoted lit q t
    else searchQuoted lit q t

/-- The content probe: single-quote pattern first, double-quote fallback. -/
def contentOf (docPart : List Char) : Option (List Char) :=
  match searchQuoted pageContentSq sqc docPart with
  | some g => some g
  | none => searchQuoted pageContentDq dqc docPart

/-- `.replace("\\'", "'")` resp. `.replace('\\"', '"')`: left-to-right
non-overlapping replacement of the two-character escape by the bare quote. -/
def unescapePair (x : Char) : List Char → List Char
  | b :: c :: t =>
    if b = bslc ∧ c = x then x :: unescapePair x t
    else b :: unescapePair x (c :: t)
  | l => l

def pyUnescape (s : List Char) : List Char := unescapePair dqc (unescapePair sqc s)

/-- `re.search(r"metadata=({[^}]*}[)}]*)", doc_part)`: at the leftmost viable
position, the literal, then `{`, a maximal run of non-`}` characters, the `}`,
then a maximal run of `)`/`}` characters. -/
def searchMeta1 : List Char → Option (List Char)
  | [] => none
  | l@(_ :: t) =>
    if metaLit.isPrefixOf l then
      match l.drop metaLit.length with
      | b :: r2 =>
        if b = lbc then
          let inner := r2.takeWhile (· ≠ rbc)
          if inner.length < r2.length then
            let tail := r2.drop (inner.length + 1)
            some (lbc :: inner ++ rbc :: tail.takeWhile (fun c => c = ')' ∨ c = rbc))
          else searchMeta1 t
        else searchMeta1 t
      | [] => searchMeta1 t
    else searchMeta1 t

/-- The lazy `.*?}\)` tail of the fallback metadata pattern: the shortest
prefix ending in `})`, with `.` not crossing a newline. -/
def lazyToBraceParen : List Char → Option (List Char)
  | c :: d :: t =>
    if c = rbc ∧ d = ')' then some [rbc, ')']
    else if c = nlc then none
    else (lazyToBraceParen (d :: t)).map (c :: ·)
  | _ => none

/-- `re.search(r"metadata=({.*?}\))", doc_part)`, the fallback probe. -/
def searchMeta2 : List Char → Option (List Char)
  | [] => none
  | l@(_ :: t) =>
    if metaLit.isPrefixOf l then
      match l.drop metaLit.length with
      | b :: r2 =>
        if b = lbc then
          match lazyToBraceParen r2 with
          | some consumed => some (lbc :: consumed)
          | none => searchMeta2 t
        else searchMeta2 t
      | [] => searchMeta2 t
    else searchMeta2 t

/-- `re.search(...) or re.search(...)` on the two metadata patterns. -/
def metadataOf (docPart : List Char) : Option (List Char) :=
  match searchMeta1 docPart with
  | some g => some g
  | none => searchMeta2 docPart

/-- `re.search(r"'key':\s*'([^']+)'", s)`: leftmost occurrence of the quoted
key literal, optional whitespace, then a nonempty single-quoted value. -/
def searchKeyQuoted (keyLit : List Char) : List Char → Option (List Char)
  | [] => none
  | l@(_ :: t) =>
    if keyLit.isPrefixOf l then
      match (l.drop keyLit.length).dropWhile pyIsSpace with
      | c :: r =>
        if c = sqc then
          let g := r.takeWhile (· ≠ sqc)
          if g ≠ [] ∧ g.length < r.length then some g else searchKeyQuoted keyLit t
        else searchKeyQuoted keyLit t
      | [] => searchKeyQuoted keyLit t
    else searchKeyQuoted keyLit t

/-- `re.search(r"'key':\s*(RUN+)", s)` for a character-class run (`\d` for
`seq_num`, `[0-9.]` for `quality_score`); first match only, as the callers
use `findall(...)[0]` or `.group(1)`. -/
def searchKeyNum (keyLit : List Char) (p : Char → Bool) : List Char → Option (List Char)
  | [] => none
  | l@(_ :: t) =>
    if keyLit.isPrefixOf l then
      let g := ((l.drop keyLit.length).dropWhile pyIsSpace).takeWhile p
      if g ≠ [] then some g else searchKeyNum keyLit p t
    else searchKeyNum keyLit p t

/-- `_parse_metadata`: independent probes for `source`, `id`, `seq_num`,
inserted into the mapping in that order. -/
def parse_metadata (metadata_str : List Char) : List (List Char × List Char) :=
  (match searchKeyQuoted sourceLit metadata_str with
   | some v => [("source".toList, v)]
   | none => []) ++
  (match searchKeyQuoted idLit metadata_str with
   | some v => [("id".toList, v)]
   | none => []) ++
  (match searchKeyNum seqLit Char.isDigit metadata_str with
   | some v => [("seq_num".toList, v)]
   | none => [])

/-- The timestamp pattern `\d{4}-\d{2}-\d{2} \d{2}:\d{2}:\d{2},\d{3}`
as a list of per-position character tests. -/
def tsShape : List (Char → Bool) :=
  let d : Char → Bool := Char.isDigit
  [d, d, d, d, (· = '-'), d, d, (· = '-'), d, d, (· = ' '),
   d, d, (· = ':'), d, d, (· = ':'), d, d, (· = ','), d, d, d]

def matchShape : List (Char → Bool) → List Char → Bool
  | [], _ => true
  | _ :: _, [] => false
  | p :: ps, c :: t => p c && matchShape ps t

/-- `timestamp_pattern.search(line)`: the leftmost 23-character substring of
timestamp shape, anywhere in the line (the pattern is not anchored). -/
def searchTimestamp : List Char → Option (List Char)
  | [] => none
  | l@(_ :: t) => if matchShape tsShape l then some (l.take 23) else searchTimestamp t

/-! ## Record locator: `_parse_document_list`

The cursor `pos` of the Python loop is represented by the suffix
`rest = doc_list_str[pos:]`; every operation of the loop body reads the
string only at or after positions determined by `pos`, so this is faithful.
`fuel` bounds the number of iterations; `parse_document_list` supplies
`length + 1`, which the strict cursor advance on every path makes sufficient
(`parseDocLoop_fuel_stable` below). -/

def parseDocLoop : Nat → List Char → Nat → List (List Char × List Char × List Char)
  | 0, _, _ => []
  | fuel + 1, rest, iter =>
    if rest = [] ∨ 20 ≤ iter then []
    else
      match firstOccur docMarker rest with
      | none => []
      | some off =>
        let atDoc := rest.drop off
        match scanDelim '(' ')' (atDoc.drop 9) (charAt atDoc 8) none 1 with
        | none =>
          -- unbalanced envelope: advance one past the marker, do not count
          -- this against the iteration cap (`continue` skips `iteration += 1`)
          parseDocLoop fuel (rest.drop (off + 1)) iter
        | some k =>
          let docPart := atDoc.take (9 + k)
          let afterEnv := atDoc.drop (9 + k)
          let skip := (afterEnv.takeWhile fun c => c = ' ' ∨ c = ',' ∨ c = ')').length
          let remaining := afterEnv.drop skip
          match matchDecimal remaining with
          | some score =>
            (match contentOf docPart, metadataOf docPart with
             | some content, some meta => [(pyUnescape content, meta, score)]
             | _, _ => []) ++
            parseDocLoop fuel (remaining.drop score.length) (iter + 1)
          | none => parseDocLoop fuel afterEnv (iter + 1)

def parse_document_list (doc_list_str : List Char) : List (List Char × List Char × List Char) :=
  parseDocLoop (doc_list_str.length + 1) doc_list_str 0

/-! ## Entry building: `_extract_relevance_scores_from_line` -/

structure RelevanceScoreEntry where
  document_content : List Char
  metadata : List (List Char × List Char)
  similarity_score : Dec
  quality_score : Option Dec
  source_line : List Char
  timestamp : Option (List Char)
  source_file : Option (List Char)
deriving DecidableEq, Repr

def mkEntry (line content : List Char) (metadata : List (List Char × List Char))
    (score : Dec) (quality : Option Dec) : RelevanceScoreEntry :=
  { document_content :=
      if 500 < content.length then content.take 500 ++ "...".toList else content
    metadata := metadata
    similarity_score := score
    quality_score := quality
    source_line := line
    timestamp := searchTimestamp line
    source_file := (metadata.find? fun p => p.1 == "source".toList).map (·.2) }

/-- The per-document body of the `for doc_content, metadata_str, score_str`
loop: parse the score with `float` (a `ValueError` skips the document), probe
the metadata fields, extract a quality score from the content (an unparseable
one also skips the document, through the same `except`), and attach the
line's timestamp. -/
def buildEntry (line : List Char) (tup : List Char × List Char × List Char) :
    List RelevanceScoreEntry :=
  match pyFloat tup.2.2 with
  | none => []
  | some score =>
    let metadata := parse_metadata tup.2.1
    match searchKeyNum qualityLit (fun c => c.isDigit ∨ c = '.') tup.1 with
    | some qs =>
      match pyFloat qs with
      | none => []
      | some qv => [mkEntry line tup.1 metadata score (some qv)]
    | none => [mkEntry line tup.1 metadata score none]

/-- `_extract_relevance_scores_from_line`: find the warning preamble, scan for
the bracket balancing the `[` it ends with (the character before the scan
start is that `[`, i.e. `line[start_pos]`), slice out the document list and
build one entry per extracted record. -/
def extract_relevance_scores_from_line (line : List Char) : List RelevanceScoreEntry :=
  match findSub line relevance_warning_start with
  | none => []
  | some i =>
    let startPos := i + relevance_warning_start.length - 1
    match scanDelim '[' ']' (line.drop (startPos + 1)) (charAt line startPos) none 1 with
    | none => []
    | some k =>
      let docListStr := (line.drop startPos).take (k + 1)
      (parse_document_list docListStr).flatMap (buildEntry line)

/-- `parse_log_content`: split the buffer into lines and process each line
containing the relevance phrase.  The `try/except` around the per-line call
catches any exception and skips just that line; in this total model each line
independently contributes its (possibly empty) entry list. -/
def parse_log_content (log_content : List Char) : List RelevanceScoreEntry :=
  (splitLines log_content).flatMap fun line =>
    if containsSub line relevancePhrase then extract_relevance_scores_from_line line
    else []

/-! ## `handle_malformed_entries` and the threshold pattern -/

structure MalformedEntry where
  line_number : Nat
  type : List Char
  issue : List Char
  source_line : List Char
deriving DecidableEq, Repr

/-- `threshold_warning_pattern.findall(line)`: all non-overlapping matches of
the literal followed by a nonempty `[0-9.]+` group, resuming after each
match.  Fuel-based; `thresholdMatches` supplies `length + 1`. -/
def thresholdMatchesAux : Nat → List Char → List (List Char)
  | 0, _ => []
  | _, [] => []
  | fuel + 1, l@(_ :: t) =>
    if thresholdLit.isPrefixOf l then
      let rest := l.drop thresholdLit.length
      let g := rest.takeWhile fun c => c.isDigit ∨ c = '.'
      if g ≠ [] then g :: thresholdMatchesAux fuel (rest.drop g.length)
      else thresholdMatchesAux fuel t
    else thresholdMatchesAux fuel t

def thresholdMatches (line : List Char) : List (List Char) :=
  thresholdMatchesAux (line.length + 1) line

/-- The `is_parsed` computation of `handle_malformed_entries` for a line whose
relevance preamble matched: the same bracket scan and document-list parse as
the extractor, succeeding when at least one record came out. -/
def relevanceIsParsed (line : List Char) : Bool :=
  match findSub line relevance_warning_start with
  | none => false
  | some i =>
    let startPos := i + relevance_warning_start.length - 1
    match scanDelim '[' ']' (line.drop (startPos + 1)) (charAt line startPos) none 1 with
    | none => false
    | some k => !(parse_document_list ((line.drop startPos).take (k + 1))).isEmpty

def issueRel : List Char := "Found relevance warning but could not parse document list".toList

def issueThr : List Char := "Found threshold warning but could not parse threshold value".toList

/-- One line of `handle_malformed_entries`: the outer trigger test, then the
relevance branch (which appends only when the preamble pattern matched and the
parse failed) and the threshold `elif` branch; a line whose only trigger is
the bare `Document(` marker falls through both inner branches. -/
def handleLineMalformed (idx : Nat) (line : List Char) : List MalformedEntry :=
  if containsSub line relevancePhrase ∨ containsSub line thresholdPhrase ∨
      containsSub line docMarker then
    if containsSub line relevancePhrase then
      match findSub line relevance_warning_start with
      | some _ =>
        if relevanceIsParsed line then []
        else [⟨idx, "relevance_warning_no_docs".toList, issueRel, line⟩]
      | none => []
    else if containsSub line thresholdPhrase then
      if thresholdMatches line = [] then
        [⟨idx, "threshold_warning_malformed".toList, issueThr, line⟩]
      else []
    else []
  else []

def handle_malformed_entries (log_content : List Char) : List MalformedEntry :=
  ((splitLines log_content).enum.map fun p => (p.1 + 1, p.2)).flatMap fun p =>
    handleLineMalformed p.1 p.2

/-! ## Concrete log lines used by the end-to-end claims -/

/-- The end-to-end scenario line
`Relevance scores must be between 0 and 1, got [(Document(page_content='Sample content', metadata={'source': 'test.json'}), 0.025)]`. -/
def c1Line : List Char :=
  "Relevance scores must be between 0 and 1, got [(Document(page_content=".toList
  ++ [sqc] ++ "Sample content".toList ++ [sqc]
  ++ ", metadata=".toList ++ [lbc, sqc] ++ "source".toList ++ [sqc, ':', ' ', sqc]
  ++ "test.json".toList ++ [sqc, rbc] ++ "), 0.025)]".toList

def c1Entry : RelevanceScoreEntry :=
  { document_content := "Sample content".toList
    metadata := [("source".toList, "test.json".toList)]
    similarity_score := ⟨25, 3⟩
    quality_score := none
    source_line := c1Line
    timestamp := none
    source_file := some "test.json".toList }

/-- A record whose single-quoted content contains an escaped single quote:
`... got [(Document(page_content='it\'s here', metadata={'source': 'a.json'}), 0.5)]`. -/
def c3Line : List Char :=
  "Relevance scores must be between 0 and 1, got [(Document(page_content=".toList
  ++ [sqc] ++ "it".toList ++ [bslc, sqc] ++ "s here".toList ++ [sqc]
  ++ ", metadata=".toList ++ [lbc, sqc] ++ "source".toList ++ [sqc, ':', ' ', sqc]
  ++ "a.json".toList ++ [sqc, rbc] ++ "), 0.5)]".toList

/-- The full unescaped payload `it's here` the escape-honoring reading expects. -/
def c3Expected : List Char := "it".toList ++ sqc :: "s here".toList

/-- A well-formed single-record line whose 519-character payload contains
literal `]` and `)` (and no quote or backslash). -/
def c2cPayload : List Char := "has ] and ) inside ".toList ++ List.replicate 500 'a'

def c2cLine : List Char :=
  "Relevance scores must be between 0 and 1, got [(Document(page_content=".toList
  ++ [sqc] ++ c2cPayload ++ [sqc]
  ++ ", metadata=".toList ++ [lbc, sqc] ++ "source".toList ++ [sqc, ':', ' ', sqc]
  ++ "test.json".toList ++ [sqc, rbc] ++ "), 0.5)]".toList

/-- A line whose only trigger substring is the bare record marker. -/
def c4DocLine : List Char := "Document(".toList

/-- A line with a timestamp-shaped token that is not at the line's start. -/
def c9Line : List Char :=
  "warn 2026-01-25 04:00:31,043 ".toList ++ c1Line

def c9Ts : List Char := "2026-01-25 04:00:31,043".toList

/-! ## C1: the end-to-end scenario -/

/-- C1: for the single scenario line, `parse_log_content` returns exactly one
entry, with `document_content = "Sample content"`, metadata the one-key
mapping `source ↦ test.json`, `similarity_score = 0.025` and no quality
score. -/
theorem claim_C1 :
    parse_log_content c1Line = [c1Entry] ∧
    c1Entry.document_content = "Sample content".toList ∧
    c1Entry.metadata = [("source".toList, "test.json".toList)] ∧
    c1Entry.similarity_score.toRat = 25 / 1000 ∧
    c1Entry.quality_score = none := by
  refine ⟨by decide, by decide, by decide, ?_, by decide⟩
  norm_num [c1Entry, Dec.toRat]

/-! ## C3: escaped single quotes are *not* honored by the content probe

The single-quote content pattern `page_content='((?:[^']|\\')*?)'` was written
with an `\\'` alternative and the extractor unescapes `\'` afterwards, and the
specification says escaped quotes are honored; but because the lazy `*?`
closes at the first possible quote and `[^']` already consumes the backslash,
the engine always terminates the group at the first `'` after the opening
quote — escaped or not.  On `page_content='it\'s here'` the captured group is
`it\`, not `it's here`. -/

/-- C3: evaluating the extractor at the failing input: the single entry's
`document_content` is the cut-off text `it\` (backslash retained), not the
full unescaped payload `it's here`. -/
theorem claim_C3 :
    (parse_log_content c3Line).map (·.document_content) = [['i', 't', bslc]] ∧
    (['i', 't', bslc] : List Char) ≠ c3Expected := by
  constructor
  · decide
  · decide

/-! ## C2 counterexample: the 500-character preview truncation -/

/-- C2 as stated is falsified by payloads longer than the 500-character
preview: this well-formed record's quoted payload contains literal `]` and
`)`, the scanners do not miscount them and exactly one entry is produced, but
its `document_content` is the truncated preview, not the full payload text. -/
theorem claim_C2_counterexample :
    (parse_log_content c2cLine).map (·.document_content)
      = [c2cPayload.take 500 ++ "...".toList] ∧
    c2cPayload.take 500 ++ "...".toList ≠ c2cPayload := by
  constructor
  · decide
  · decide

/-! ## C4 counterexample: two trigger shapes yield no `MalformedEntry`

In `handle_malformed_entries` the relevance branch appends only under
`if relevance_start_match:`, so a line carrying the relevance phrase without
`, got [` appends nothing; and a line whose only trigger is the bare
`Document(` marker matches neither inner branch. -/

/-- C4 counterexample: a line containing only the bare `Document(` marker, and
a line containing the relevance-warning phrase without the `, got [` preamble,
both produce **no** `MalformedEntry`, although no structured record can be
extracted from either. -/
theorem claim_C4_counterexample :
    handle_malformed_entries c4DocLine = [] ∧
    handle_malformed_entries relevancePhrase = [] := by
  constructor
  · decide
  · decide

/-! ## C9 counterexample: the timestamp pattern is not anchored -/

/-- C9 counterexample: `c9Line` does not begin with a timestamp-shaped token,
yet its entry carries the timestamp found later in the line, not `None`. -/
theorem claim_C9_counterexample :
    (parse_log_content c9Line).map (·.timestamp) = [some c9Ts] ∧
    matchShape tsShape c9Line = false := by
  constructor
  · decide
  · decide

/-! ## Utility lemmas about the list helpers -/

theorem charAt_append_left (a b : List Char) (n : Nat) (h : n < a.length) :
    charAt (a ++ b) n = charAt a n := by
  induction a generalizing n with
  | nil => simp at h
  | cons x t ih =>
    cases n with
    | zero => rfl
    | succ m => simpa [charAt] using ih m (by simpa using h)

theorem splitLines_ne_nil (l : List Char) : splitLines l ≠ [] := by
  cases l with
  | nil => simp [splitLines]
  | cons c t =>
    unfold splitLines
    split
    · simp
    · split <;> simp_all

theorem splitLines_append (a b : List Char) :
    splitLines (a ++ nlc :: b) = splitLines a ++ splitLines b := by
  induction a with
  | nil => simp [splitLines]
  | cons c t ih =>
    by_cases hc : c = nlc
    · subst hc
      simp [splitLines, ih]
    · have h1 : splitLines (c :: (t ++ nlc :: b)) =
          match splitLines (t ++ nlc :: b) with
          | [] => [[c]]
          | l :: ls => (c :: l) :: ls := by
        simp [splitLines, hc]
      have h2 : splitLines (c :: t) =
          match splitLines t with
          | [] => [[c]]
          | l :: ls => (c :: l) :: ls := by
        simp [splitLines, hc]
      rcases hsp : splitLines t with _ | ⟨l, ls⟩
      · exact absurd hsp (splitLines_ne_nil t)
      · simp only [List.cons_append, h1, ih, hsp, List.cons_append, h2]

theorem splitLines_single (l : List Char) (h : nlc ∉ l) : splitLines l = [l] := by
  induction l with
  | nil => rfl
  | cons c t ih =>
    have hc : c ≠ nlc := fun hx => h (hx ▸ List.mem_cons_self c t)
    have ht : nlc ∉ t := fun hx => h (List.mem_cons_of_mem c hx)
    simp [splitLines, hc, ih ht]

theorem firstOccur_isSome_iff (pat l : List Char) :
    (firstOccur pat l).isSome ↔ ∃ i, pat.isPrefixOf (l.drop i) := by
  induction l with
  | nil =>
    constructor
    · intro h
      refine ⟨0, ?_⟩
      unfold firstOccur at h
      by_cases hp : pat.isEmpty
      · simp [List.isEmpty_iff.mp hp]
      · simp [hp] at h
    · rintro ⟨i, hi⟩
      have : pat = [] := by
        have := List.isPrefixOf_iff_prefix.mp hi
        simpa using List.prefix_nil.mp (by simpa using this)
      simp [firstOccur, this]
  | cons c t ih =>
    constructor
    · intro h
      unfold firstOccur at h
      by_cases hp : pat.isPrefixOf (c :: t)
      · exact ⟨0, by simpa using hp⟩
      · simp only [hp, if_neg, Option.isSome_map] at h
        obtain ⟨i, hi⟩ := ih.mp (by simpa using h)
        exact ⟨i + 1, by simpa using hi⟩
    · rintro ⟨i, hi⟩
      unfold firstOccur
      by_cases hp : pat.isPrefixOf (c :: t)
      · simp [hp]
      · cases i with
        | zero =>
          rw [List.drop_zero] at hi
          exact absurd hi hp
        | succ j =>
          simp only [List.drop_succ_cons] at hi
          have := ih.mpr ⟨j, hi⟩
          simpa [hp] using this

theorem firstOccur_eq_zero_of_starts (pat l : List Char) (hne : pat ≠ [])
    (h : pat.isPrefixOf l) : firstOccur pat l = some 0 := by
  cases l with
  | nil =>
    exfalso
    have := List.isPrefixOf_iff_prefix.mp h
    exact hne (by simpa using List.prefix_nil.mp this)
  | cons c t => simp [firstOccur, h]

theorem containsSub_of_prefix_drop (l pat : List Char) (i : Nat)
    (h : pat.isPrefixOf (l.drop i)) : containsSub l pat = true := by
  unfold containsSub
  have : (firstOccur pat l).isSome := (firstOccur_isSome_iff pat l).mpr ⟨i, h⟩
  simpa using this

theorem firstOccur_sound (pat : List Char) :
    ∀ l i, firstOccur pat l = some i → pat.isPrefixOf (l.drop i) := by
  intro l
  induction l with
  | nil =>
    intro i h
    unfold firstOccur at h
    by_cases hp : pat.isEmpty
    · simp [hp] at h
      subst h
      simp [List.isEmpty_iff.mp hp]
    · simp [hp] at h
  | cons c t ih =>
    intro i h
    unfold firstOccur at h
    by_cases hp : pat.isPrefixOf (c :: t)
    · rw [if_pos hp] at h
      have : i = 0 := by simpa using h.symm
      subst this
      simpa using hp
    · rw [if_neg hp] at h
      rcases hmap : firstOccur pat t with _ | j
      · rw [hmap] at h
        simp at h
      · rw [hmap] at h
        have : i = j + 1 := by simpa using h.symm
        subst this
        simpa using ih j hmap

/-- The relevance phrase is a prefix of the warning-start literal, so a line
on which the warning-start pattern matched contains the phrase. -/
theorem containsSub_relevancePhrase_of_start (line : List Char) (i : Nat)
    (h : findSub line relevance_warning_start = some i) :
    containsSub line relevancePhrase = true := by
  have hpre := firstOccur_sound relevance_warning_start line i h
  refine containsSub_of_prefix_drop line relevancePhrase i ?_
  rw [List.isPrefixOf_iff_prefix] at hpre ⊢
  refine List.IsPrefix.trans ?_ hpre
  exact ⟨", got [".toList, by decide⟩

/-! ## C7: per-line locality of `parse_log_content` -/

/-- C7: processing is per-line and local: parsing a buffer split by a newline
equals parsing the two halves independently and concatenating.  In particular
a line that yields nothing (e.g. any malformed line; in the Python original
also any line whose processing raises, which the per-line `try/except`
converts into an empty contribution) never affects the entries recovered from
the lines before or after it.  The model is total, so no exception escapes
`parse_log_content` itself. -/
theorem claim_C7 (a b : List Char) :
    parse_log_content (a ++ nlc :: b) = parse_log_content a ++ parse_log_content b := by
  unfold parse_log_content
  rw [splitLines_append, List.flatMap_append]

/-! ## C5: truncated document list (unbalanced bracket scan) -/

/-- Reduction of `handle_malformed_entries` on a single-line buffer. -/
theorem handle_malformed_single (line : List Char) (h : nlc ∉ line) :
    handle_malformed_entries line = handleLineMalformed 1 line := by
  unfold handle_malformed_entries
  rw [splitLines_single line h]
  simp

/-- C5: if the relevance preamble is found in a line but the quote-aware
bracket scan reaches the end of the line with depth still positive, then the
extractor emits no entries for that line (processing of the model is total,
so it terminates), and `handle_malformed_entries` reports the line as a
`relevance_warning_no_docs` malformed entry. -/
theorem claim_C5 (line : List Char) (hnl : nlc ∉ line) (i : Nat)
    (hfind : findSub line relevance_warning_start = some i)
    (hscan : scanDelim '[' ']'
        (line.drop (i + relevance_warning_start.length - 1 + 1))
        (charAt line (i + relevance_warning_start.length - 1)) none 1 = none) :
    parse_log_content line = [] ∧
    handle_malformed_entries line =
      [⟨1, "relevance_warning_no_docs".toList, issueRel, line⟩] := by
  have hcontains := containsSub_relevancePhrase_of_start line i hfind
  have hextract : extract_relevance_scores_from_line line = [] := by
    unfold extract_relevance_scores_from_line
    simp only [hfind, hscan]
  have hparsed : relevanceIsParsed line = false := by
    unfold relevanceIsParsed
    simp only [hfind, hscan]
  constructor
  · unfold parse_log_content
    rw [splitLines_single line hnl]
    simp [hcontains, hextract]
  · rw [handle_malformed_single line hnl]
    unfold handleLineMalformed
    simp only [hcontains, hfind, hparsed]
    simp

/-- A line with the preamble whose bracket never closes. -/
def c5TruncLine : List Char :=
  "Relevance scores must be between 0 and 1, got [(Document(page_content=".toList
  ++ [sqc] ++ "trunc".toList

theorem claim_C5_witness :
    parse_log_content c5TruncLine = [] ∧
    handle_malformed_entries c5TruncLine =
      [⟨1, "relevance_warning_no_docs".toList, issueRel, c5TruncLine⟩] :=
  claim_C5 c5TruncLine (by decide) 0 (by decide) (by decide)

/-! ## C4 (amended): which trigger shapes are actually reported -/

/-- C4, amended: `handle_malformed_entries` reports a line exactly in two
cases — the full relevance preamble `... got [` matched but the document-list
parse produced nothing (the code's `is_parsed` stayed false), or the
threshold phrase occurred (without the relevance phrase) and no threshold
number parsed.  A line whose only trigger is the bare `Document(` marker, or
one containing the relevance phrase without the `, got [` preamble, yields no
`MalformedEntry`. -/
theorem claim_C4 :
    (∀ line : List Char, nlc ∉ line → ∀ i,
        findSub line relevance_warning_start = some i →
        relevanceIsParsed line = false →
        handle_malformed_entries line =
          [⟨1, "relevance_warning_no_docs".toList, issueRel, line⟩]) ∧
    (∀ line : List Char, nlc ∉ line →
        containsSub line relevancePhrase = false →
        containsSub line thresholdPhrase = true →
        thresholdMatches line = [] →
        handle_malformed_entries line =
          [⟨1, "threshold_warning_malformed".toList, issueThr, line⟩]) ∧
    handle_malformed_entries c4DocLine = [] ∧
    handle_malformed_entries relevancePhrase = [] := by
  refine ⟨?_, ?_, by decide, by decide⟩
  · intro line hnl i hfind hparsed
    have hcontains := containsSub_relevancePhrase_of_start line i hfind
    rw [handle_malformed_single line hnl]
    unfold handleLineMalformed
    simp only [hcontains, hfind, hparsed]
    simp
  · intro line hnl hrel hthr hmatches
    rw [handle_malformed_single line hnl]
    unfold handleLineMalformed
    simp [hrel, hthr, hmatches]

/-- A second truncated-preamble line (an unclosed empty list). -/
def c4TruncLine : List Char :=
  "Relevance scores must be between 0 and 1, got [(Document(x".toList

/-- A threshold-phrase line with no parsable threshold value. -/
def c4ThrLine : List Char := "No relevant docs were retrieved, sorry".toList

theorem claim_C4_witness :
    handle_malformed_entries c4TruncLine =
      [⟨1, "relevance_warning_no_docs".toList, issueRel, c4TruncLine⟩] ∧
    handle_malformed_entries c4ThrLine =
      [⟨1, "threshold_warning_malformed".toList, issueThr, c4ThrLine⟩] :=
  ⟨claim_C4.1 c4TruncLine (by decide) 0 (by decide) (by decide),
   claim_C4.2.1 c4ThrLine (by decide) (by decide) (by decide) (by decide)⟩

/-! ## Entry membership helpers -/

/-- Any entry built by `buildEntry` carries the score parsed from the tuple's
score text, the line's (searched) timestamp and the line itself. -/
theorem mem_buildEntry (line : List Char) (tup : List Char × List Char × List Char)
    (e : RelevanceScoreEntry) (h : e ∈ buildEntry line tup) :
    pyFloat tup.2.2 = some e.similarity_score ∧
    e.timestamp = searchTimestamp line ∧ e.source_line = line := by
  unfold buildEntry at h
  rcases hp : pyFloat tup.2.2 with _ | score <;> rw [hp] at h
  · simp at h
  · rcases hq : searchKeyNum qualityLit (fun c => c.isDigit ∨ c = '.') tup.1
        with _ | qs <;> simp only [hq] at h
    · simp at h
      subst h
      exact ⟨rfl, rfl, rfl⟩
    · rcases hqp : pyFloat qs with _ | qv <;> rw [hqp] at h
      · simp at h
      · simp at h
        subst h
        exact ⟨rfl, rfl, rfl⟩

/-- Any entry the extractor emits for a line comes from a tuple of the parsed
document list of that line's bracketed span. -/
theorem mem_extract_line (line : List Char) (e : RelevanceScoreEntry)
    (h : e ∈ extract_relevance_scores_from_line line) :
    ∃ i k tup,
      findSub line relevance_warning_start = some i ∧
      scanDelim '[' ']' (line.drop (i + relevance_warning_start.length - 1 + 1))
        (charAt line (i + relevance_warning_start.length - 1)) none 1 = some k ∧
      tup ∈ parse_document_list
        ((line.drop (i + relevance_warning_start.length - 1)).take (k + 1)) ∧
      e ∈ buildEntry line tup := by
  unfold extract_relevance_scores_from_line at h
  rcases hf : findSub line relevance_warning_start with _ | i <;> rw [hf] at h
  · simp at h
  · rcases hs : scanDelim '[' ']'
        (line.drop (i + relevance_warning_start.length - 1 + 1))
        (charAt line (i + relevance_warning_start.length - 1)) none 1
      with _ | k <;> simp only [hs] at h
    · simp at h
    · rw [List.mem_flatMap] at h
      obtain ⟨tup, htup, he⟩ := h
      exact ⟨i, k, tup, rfl, hs, htup, he⟩

/-! ## C9 (amended): one shared timestamp per line, searched anywhere -/

/-- C9, amended: every entry built from a line carries one single shared
timestamp, namely the first substring of the line of shape
`YYYY-MM-DD HH:MM:SS,mmm` — searched anywhere in the line, not only at its
start (`None` exactly when no such substring occurs anywhere). -/
theorem claim_C9 (line : List Char) (e : RelevanceScoreEntry)
    (h : e ∈ extract_relevance_scores_from_line line) :
    e.timestamp = searchTimestamp line := by
  obtain ⟨i, k, tup, _, _, _, he⟩ := mem_extract_line line e h
  exact (mem_buildEntry line tup e he).2.1

def c9Entry : RelevanceScoreEntry :=
  { document_content := "Sample content".toList
    metadata := [("source".toList, "test.json".toList)]
    similarity_score := ⟨25, 3⟩
    quality_score := none
    source_line := c9Line
    timestamp := some c9Ts
    source_file := some "test.json".toList }

theorem claim_C9_witness : c9Entry.timestamp = searchTimestamp c9Line :=
  claim_C9 c9Line c9Entry (by decide)

/-! ## C8: every emitted score text was decimal-matched and float-parses -/

/-- Every tuple the record locator emits took its score component from a
successful `matchDecimal`. -/
theorem parseDocLoop_score_matched :
    ∀ fuel rest iter tup, tup ∈ parseDocLoop fuel rest iter →
      ∃ r, matchDecimal r = some tup.2.2 := by
  intro fuel
  induction fuel with
  | zero =>
    intro rest iter tup h
    simp [parseDocLoop] at h
  | succ f ih =>
    intro rest iter tup h
    unfold parseDocLoop at h
    by_cases hguard : rest = [] ∨ 20 ≤ iter
    · rw [if_pos hguard] at h
      simp at h
    · rw [if_neg hguard] at h
      rcases hocc : firstOccur docMarker rest with _ | off <;> rw [hocc] at h
      · simp at h
      · simp only [] at h
        rcases hsc : scanDelim '(' ')' ((rest.drop off).drop 9)
            (charAt (rest.drop off) 8) none 1 with _ | k <;> rw [hsc] at h
        · exact ih _ _ _ h
        · simp only [] at h
          rcases hdec : matchDecimal
              (((rest.drop off).drop (9 + k)).drop
                (((rest.drop off).drop (9 + k)).takeWhile
                  (fun c => c = ' ' ∨ c = ',' ∨ c = ')')).length)
              with _ | score <;> rw [hdec] at h
          · exact ih _ _ _ h
          · rw [List.mem_append] at h
            rcases h with h | h
            · rcases hc : contentOf ((rest.drop off).take (9 + k)) with _ | content <;>
                rw [hc] at h
              · simp at h
              · rcases hm : metadataOf ((rest.drop off).take (9 + k)) with _ | meta <;>
                  rw [hm] at h
                · simp at h
                · simp at h
                  subst h
                  exact ⟨_, hdec⟩
            · exact ih _ _ _ h

/-- C8: every entry returned by `parse_log_content` has a present, parsed
similarity score, and records with an unparseable score are dropped rather
than emitted with a null score.  First half: the score of any entry of any
buffer is `float(...)` of the score text of an actual record tuple parsed
from the bracketed span of an actual line of that buffer (so the score always
comes from a successful `float` on run data, never from a default).  Second
half: a record tuple whose score text `float` rejects produces no entry at
all — the per-document builder returns the empty list for it. -/
theorem claim_C8 :
    (∀ (buf : List Char) (e : RelevanceScoreEntry), e ∈ parse_log_content buf →
      ∃ line i k tup,
        line ∈ splitLines buf ∧
        findSub line relevance_warning_start = some i ∧
        scanDelim '[' ']' (line.drop (i + relevance_warning_start.length - 1 + 1))
          (charAt line (i + relevance_warning_start.length - 1)) none 1 = some k ∧
        tup ∈ parse_document_list
          ((line.drop (i + relevance_warning_start.length - 1)).take (k + 1)) ∧
        pyFloat tup.2.2 = some e.similarity_score) ∧
    (∀ (line : List Char) (tup : List Char × List Char × List Char),
      pyFloat tup.2.2 = none → buildEntry line tup = []) := by
  constructor
  · intro buf e h
    unfold parse_log_content at h
    rw [List.mem_flatMap] at h
    obtain ⟨line, hmem, hline⟩ := h
    by_cases hc : containsSub line relevancePhrase = true
    · rw [if_pos hc] at hline
      obtain ⟨i, k, tup, hf, hs, htup, he⟩ := mem_extract_line line e hline
      exact ⟨line, i, k, tup, hmem, hf, hs, htup, (mem_buildEntry line tup e he).1⟩
    · rw [if_neg hc] at hline
      simp at hline
  · intro line tup h
    unfold buildEntry
    rw [h]

theorem claim_C8_witness :
    (∃ line i k tup,
        line ∈ splitLines c1Line ∧
        findSub line relevance_warning_start = some i ∧
        scanDelim '[' ']' (line.drop (i + relevance_warning_start.length - 1 + 1))
          (charAt line (i + relevance_warning_start.length - 1)) none 1 = some k ∧
        tup ∈ parse_document_list
          ((line.drop (i + relevance_warning_start.length - 1)).take (k + 1)) ∧
        pyFloat tup.2.2 = some c1Entry.similarity_score) ∧
    buildEntry c1Line ("x".toList, "m".toList, "bad".toList) = [] :=
  ⟨claim_C8.1 c1Line c1Entry (by decide),
   claim_C8.2 c1Line ("x".toList, "m".toList, "bad".toList) (by decide)⟩

/-! ## C6: termination of the record-scan loop and the iteration cap -/

theorem length_drop_lt (l : List Char) (n : Nat) (hl : l ≠ []) (hn : 1 ≤ n) :
    (l.drop n).length < l.length := by
  rw [List.length_drop]
  have := List.length_pos.mpr hl
  omega

/-- The record-scan loop is insensitive to the fuel bound as soon as the fuel
exceeds the remaining length: the cursor strictly advances on every path
(including the unbalanced-envelope retry, which moves one past the marker), so
`length + 1` iterations always suffice. -/
theorem parseDocLoop_stable :
    ∀ f₁ f₂ rest iter, rest.length < f₁ → rest.length < f₂ →
      parseDocLoop f₁ rest iter = parseDocLoop f₂ rest iter := by
  intro f₁
  induction f₁ with
  | zero => intro f₂ rest iter h1 h2; omega
  | succ f ih =>
    intro f₂ rest iter h1 h2
    cases f₂ with
    | zero => omega
    | succ g =>
      unfold parseDocLoop
      by_cases hguard : rest = [] ∨ 20 ≤ iter
      · rw [if_pos hguard, if_pos hguard]
      · rw [if_neg hguard, if_neg hguard]
        have hne : rest ≠ [] := fun hx => hguard (Or.inl hx)
        rcases hocc : firstOccur docMarker rest with _ | off <;> simp only [hocc]
        rcases hsc : scanDelim '(' ')' ((rest.drop off).drop 9)
            (charAt (rest.drop off) 8) none 1 with _ | k <;> simp only [hsc]
        · have hlt := length_drop_lt rest (off + 1) hne (by omega)
          exact ih g (rest.drop (off + 1)) iter (by omega) (by omega)
        · rcases hdec : matchDecimal
              (((rest.drop off).drop (9 + k)).drop
                (((rest.drop off).drop (9 + k)).takeWhile
                  (fun c => c = ' ' ∨ c = ',' ∨ c = ')')).length)
              with _ | score <;> simp only [hdec]
          · have hlt : ((rest.drop off).drop (9 + k)).length < rest.length := by
              rw [List.drop_drop]
              exact length_drop_lt rest (off + (9 + k)) hne (by omega)
            exact ih g _ (iter + 1) (by omega) (by omega)
          · have hlt : ((((rest.drop off).drop (9 + k)).drop
                (((rest.drop off).drop (9 + k)).takeWhile
                  (fun c => c = ' ' ∨ c = ',' ∨ c = ')')).length).drop
                  score.length).length < rest.length := by
              rw [List.drop_drop, List.drop_drop, List.drop_drop]
              exact length_drop_lt rest _ hne (by omega)
            rw [ih g _ (iter + 1) (by omega) (by omega)]

/-- At most one tuple is appended per counted iteration, and the counter is
capped at 20. -/
theorem parseDocLoop_length :
    ∀ fuel rest iter, (parseDocLoop fuel rest iter).length ≤ 20 - iter := by
  intro fuel
  induction fuel with
  | zero => intro rest iter; simp [parseDocLoop]
  | succ f ih =>
    intro rest iter
    unfold parseDocLoop
    by_cases hguard : rest = [] ∨ 20 ≤ iter
    · rw [if_pos hguard]; simp
    · rw [if_neg hguard]
      have hiter : iter < 20 := by
        by_contra hx
        exact hguard (Or.inr (by omega))
      rcases hocc : firstOccur docMarker rest with _ | off <;> simp only [hocc]
      · simp
      · rcases hsc : scanDelim '(' ')' ((rest.drop off).drop 9)
            (charAt (rest.drop off) 8) none 1 with _ | k <;> simp only [hsc]
        · exact ih _ iter
        · rcases hdec : matchDecimal
              (((rest.drop off).drop (9 + k)).drop
                (((rest.drop off).drop (9 + k)).takeWhile
                  (fun c => c = ' ' ∨ c = ',' ∨ c = ')')).length)
              with _ | score <;> simp only [hdec]
          · have := ih ((rest.drop off).drop (9 + k)) (iter + 1)
            omega
          · rw [List.length_append]
            have h1 : (match contentOf ((rest.drop off).take (9 + k)),
                metadataOf ((rest.drop off).take (9 + k)) with
                | some content, some meta => [(pyUnescape content, meta, score)]
                | _, _ => ([] : List (List Char × List Char × List Char))).length ≤ 1 := by
              rcases contentOf ((rest.drop off).take (9 + k)) with _ | c <;>
                rcases metadataOf ((rest.drop off).take (9 + k)) with _ | m <;> simp
            have h2 := ih (((((rest.drop off).drop (9 + k)).drop
                (((rest.drop off).drop (9 + k)).takeWhile
                  (fun c => c = ' ' ∨ c = ',' ∨ c = ')')).length)).drop score.length) (iter + 1)
            omega

/-- C6: the record-scan loop of `_parse_document_list` terminates — the model
computes it with `length + 1` fuel, and any larger fuel gives the same result
because the cursor strictly increases on every path (the unbalanced-envelope
retry advances one position past the marker and does not count against the
cap) — and the returned list never holds more than 20 tuples: reaching the
iteration cap silently truncates the record list. -/
theorem claim_C6 :
    (∀ (s : List Char) (extra : Nat),
        parseDocLoop (s.length + 1 + extra) s 0 = parse_document_list s) ∧
    (∀ s : List Char, (parse_document_list s).length ≤ 20) := by
  constructor
  · intro s extra
    exact parseDocLoop_stable (s.length + 1 + extra) (s.length + 1) s 0 (by omega) (by omega)
  · intro s
    have h : (parse_document_list s).length ≤ 20 - 0 :=
      parseDocLoop_length (s.length + 1) s 0
    omega

/-! ## C2 (amended): in-string delimiters are transparent to the scanners -/

/-- Characters that are neither quotes nor the delimiter pair pass through the
scanner unchanged (any string state), advancing `prev`. -/
theorem scanDelim_skip_plain (o cl : Char) :
    ∀ (chunk rest : List Char) (prev inStr : Option Char) (d : Nat),
      (∀ x ∈ chunk, ¬(x = dqc ∨ x = sqc) ∧ x ≠ o ∧ x ≠ cl) →
      bslc ∉ chunk → prev ≠ some bslc →
      ∃ p : Option Char, p ≠ some bslc ∧
        scanDelim o cl (chunk ++ rest) prev inStr d
          = (scanDelim o cl rest p inStr d).map (· + chunk.length) := by
  intro chunk
  induction chunk with
  | nil =>
    intro rest prev inStr d _ _ hprev
    refine ⟨prev, hprev, ?_⟩
    simp only [List.nil_append, List.length_nil]
    cases scanDelim o cl rest prev inStr d <;> simp
  | cons a t ih =>
    intro rest prev inStr d hplain hbsl hprev
    have ha := hplain a (List.mem_cons_self a t)
    have hstep : scanDelim o cl (a :: (t ++ rest)) prev inStr d
        = (scanDelim o cl (t ++ rest) (some a) inStr d).map (· + 1) := by
      simp only [scanDelim]
      rw [if_neg (by tauto)]
      rcases inStr with _ | q
      · rw [if_neg (by simp [ha.2.1]), if_neg (by simp [ha.2.2])]
      · rw [if_neg (by simp), if_neg (by simp)]
    have hanb : (some a : Option Char) ≠ some bslc := by
      intro hx
      exact hbsl (by simp [Option.some.injEq] at hx; simp [hx])
    obtain ⟨p, hp, heq⟩ := ih rest (some a) inStr d
      (fun x hx => hplain x (List.mem_cons_of_mem a hx))
      (fun hx => hbsl (List.mem_cons_of_mem a hx)) hanb
    refine ⟨p, hp, ?_⟩
    rw [List.cons_append, hstep, heq, Option.map_map]
    cases scanDelim o cl rest p inStr d <;> simp [Nat.add_assoc]

/-- Opening quote step. -/
theorem scanDelim_open_quote (o cl q : Char) (rest : List Char)
    (prev : Option Char) (d : Nat) (hq : q = dqc ∨ q = sqc)
    (hprev : prev ≠ some bslc) :
    scanDelim o cl (q :: rest) prev none d
      = (scanDelim o cl rest (some q) (some q) d).map (· + 1) := by
  simp only [scanDelim]
  rw [if_pos ⟨hq, hprev⟩]

/-- While inside a string, every character other than the closing quote (with
no backslashes around) is transparent: no depth change, state preserved. -/
theorem scanDelim_instring (o cl q : Char) :
    ∀ (c rest : List Char) (prev : Option Char) (d : Nat),
      (∀ x ∈ c, x ≠ q) → bslc ∉ c → prev ≠ some bslc →
      ∃ p : Option Char, p ≠ some bslc ∧
        scanDelim o cl (c ++ rest) prev (some q) d
          = (scanDelim o cl rest p (some q) d).map (· + c.length) := by
  intro c
  induction c with
  | nil =>
    intro rest prev d _ _ hprev
    refine ⟨prev, hprev, ?_⟩
    simp only [List.nil_append, List.length_nil]
    cases scanDelim o cl rest prev (some q) d <;> simp
  | cons a t ih =>
    intro rest prev d hnq hbsl hprev
    have haq : a ≠ q := hnq a (List.mem_cons_self a t)
    have hanb : (some a : Option Char) ≠ some bslc := by
      intro hx
      exact hbsl (by simp [Option.some.injEq] at hx; simp [hx])
    have hstep : scanDelim o cl (a :: (t ++ rest)) prev (some q) d
        = (scanDelim o cl (t ++ rest) (some a) (some q) d).map (· + 1) := by
      simp only [scanDelim]
      by_cases hqa : (a = dqc ∨ a = sqc) ∧ prev ≠ some bslc
      · rw [if_pos hqa]
        simp only [if_neg haq]
      · rw [if_neg hqa, if_neg (by simp), if_neg (by simp)]
    obtain ⟨p, hp, heq⟩ := ih rest (some a) d
      (fun x hx => hnq x (List.mem_cons_of_mem a hx))
      (fun hx => hbsl (List.mem_cons_of_mem a hx)) hanb
    refine ⟨p, hp, ?_⟩
    rw [List.cons_append, hstep, heq, Option.map_map]
    cases scanDelim o cl rest p (some q) d <;> simp [Nat.add_assoc]

theorem takeWhile_append_of_all (p : Char → Bool) :
    ∀ (a b : List Char), (∀ x ∈ a, p x) → (a ++ b).takeWhile p = a ++ b.takeWhile p := by
  intro a
  induction a with
  | nil => intro b _; simp
  | cons x t ih =>
    intro b h
    have hx : p x := h x (List.mem_cons_self x t)
    simp only [List.cons_append, List.takeWhile_cons, hx, ih b
      (fun y hy => h y (List.mem_cons_of_mem x hy))]
    simp

theorem unescapePair_id (x : Char) :
    ∀ s : List Char, bslc ∉ s → unescapePair x s = s
  | [], _ => rfl
  | [a], _ => rfl
  | a :: b :: t, h => by
    have ha : a ≠ bslc := fun hx => h (hx ▸ List.mem_cons_self a (b :: t))
    have hrest : bslc ∉ b :: t := fun hx => h (List.mem_cons_of_mem a hx)
    simp only [unescapePair, if_neg (by tauto : ¬(a = bslc ∧ b = x))]
    congr 1
    exact unescapePair_id x (b :: t) hrest

theorem pyUnescape_id (s : List Char) (h : bslc ∉ s) : pyUnescape s = s := by
  unfold pyUnescape
  rw [unescapePair_id sqc s h, unescapePair_id dqc s h]

theorem searchKeyNum_head_notin (hd : Char) (lt : List Char) (p : Char → Bool) :
    ∀ l : List Char, hd ∉ l → searchKeyNum (hd :: lt) p l = none := by
  intro l
  induction l with
  | nil => intro _; rfl
  | cons a t ih =>
    intro h
    have ha : hd ≠ a := fun hx => h (hx ▸ List.mem_cons_self a t)
    have hnp : ¬ (hd :: lt).isPrefixOf (a :: t) = true := by
      simp [List.isPrefixOf, ha]
    simp only [searchKeyNum, if_neg hnp]
    exact ih (fun hx => h (List.mem_cons_of_mem a hx))

theorem searchQuoted_cons_no (lit : List Char) (q a : Char) (t : List Char)
    (h : ¬ lit.isPrefixOf (a :: t) = true) :
    searchQuoted lit q (a :: t) = searchQuoted lit q t := by
  simp only [searchQuoted, if_neg h]

theorem searchQuoted_skip_of_head_notin (hd : Char) (lt : List Char) (q : Char) :
    ∀ (pre rest : List Char), hd ∉ pre →
      searchQuoted (hd :: lt) q (pre ++ rest) = searchQuoted (hd :: lt) q rest := by
  intro pre
  induction pre with
  | nil => intro rest _; rfl
  | cons a t ih =>
    intro rest h
    have ha : hd ≠ a := fun hx => h (hx ▸ List.mem_cons_self a t)
    rw [List.cons_append, searchQuoted_cons_no _ _ _ _ (by simp [List.isPrefixOf, ha])]
    exact ih rest (fun hx => h (List.mem_cons_of_mem a hx))

theorem searchQuoted_found (lit : List Char) (q : Char) (rest : List Char)
    (hne : lit ≠ []) (hlen : (rest.takeWhile (· ≠ q)).length < rest.length) :
    searchQuoted lit q (lit ++ rest) = some (rest.takeWhile (· ≠ q)) := by
  rcases hl : lit with _ | ⟨x, lt⟩
  · exact absurd hl hne
  · rw [← hl]
    have hcons : lit ++ rest = x :: (lt ++ rest) := by rw [hl]; rfl
    rw [hcons]
    have hpre : lit.isPrefixOf (x :: (lt ++ rest)) = true := by
      rw [← hcons, List.isPrefixOf_iff_prefix]
      exact List.prefix_append lit rest
    simp only [searchQuoted, hpre, if_pos]
    rw [← hcons]
    have hdrop : (lit ++ rest).drop lit.length = rest := List.drop_left lit rest
    rw [hdrop, if_pos hlen]

theorem searchMeta1_append_isSome :
    ∀ (x tail : List Char), (searchMeta1 tail).isSome →
      (searchMeta1 (x ++ tail)).isSome := by
  intro x
  induction x with
  | nil => intro tail h; simpa using h
  | cons a t ih =>
    intro tail h
    rw [List.cons_append]
    simp only [searchMeta1]
    split
    · split
      · split
        · split
          · simp
          · exact ih tail h
        · exact ih tail h
      · exact ih tail h
    · exact ih tail h

theorem firstOccur_cons_no (pat : List Char) (a : Char) (t : List Char)
    (h : ¬ pat.isPrefixOf (a :: t) = true) :
    firstOccur pat (a :: t) = (firstOccur pat t).map (· + 1) := by
  simp only [firstOccur, if_neg h]

theorem drop_append_plus (a b : List Char) (n : Nat) :
    (a ++ b).drop (a.length + n) = b.drop n := by
  rw [← List.drop_drop, List.drop_left]

/-! ### The C2 record template

`c2Line c` is the scenario line with an arbitrary single-quoted payload `c`:
`Relevance scores must be between 0 and 1, got [(Document(page_content='<c>',
metadata={'source': 'test.json'}), 0.5)]`. -/

def pcChunk : List Char := "page_content=".toList

def c2TailRest : List Char :=
  ", metadata=".toList ++ [lbc, sqc] ++ "source".toList ++ [sqc, ':', ' ', sqc]
  ++ "test.json".toList ++ [sqc, rbc] ++ "), 0.5)]".toList

def c2Tail : List Char := sqc :: c2TailRest

def c2Mid : List Char := '(' :: ("Document(".toList ++ pcChunk)

def c2Body (c : List Char) : List Char := c2Mid ++ (sqc :: (c ++ c2Tail))

def c2Line (c : List Char) : List Char := relevance_warning_start ++ c2Body c

/-- The metadata-and-close segment of the record envelope. -/
def dpt2 : List Char :=
  ", metadata=".toList ++ [lbc, sqc] ++ "source".toList ++ [sqc, ':', ' ', sqc]
  ++ "test.json".toList ++ [sqc, rbc] ++ [')']

/-- Closing quote step. -/
theorem scanDelim_close_quote (o cl q : Char) (rest : List Char)
    (prev : Option Char) (d : Nat) (hq : q = dqc ∨ q = sqc)
    (hprev : prev ≠ some bslc) :
    scanDelim o cl (q :: rest) prev (some q) d
      = (scanDelim o cl rest (some q) none d).map (· + 1) := by
  simp only [scanDelim]
  rw [if_pos ⟨hq, hprev⟩]
  simp

theorem c2Tail_scanB (p : Option Char) (hp : p ≠ some bslc) :
    scanDelim '[' ']' c2Tail p (some sqc) 1 = some 43 := by
  rw [show c2Tail = sqc :: c2TailRest from rfl,
    scanDelim_close_quote '[' ']' sqc c2TailRest p 1 (Or.inr rfl) hp,
    show scanDelim '[' ']' c2TailRest (some sqc) none 1 = some 42 from by decide]
  rfl

theorem c2Tail_scanP (p : Option Char) (hp : p ≠ some bslc) :
    scanDelim '(' ')' c2Tail p (some sqc) 1 = some 36 := by
  rw [show c2Tail = sqc :: c2TailRest from rfl,
    scanDelim_close_quote '(' ')' sqc c2TailRest p 1 (Or.inr rfl) hp,
    show scanDelim '(' ')' c2TailRest (some sqc) none 1 = some 35 from by decide]
  rfl

theorem c2_contentOf (c : List Char) (hs : sqc ∉ c) :
    contentOf (docMarker ++ (pcChunk ++ (sqc :: (c ++ (sqc :: dpt2))))) = some c := by
  have hsplit : pcChunk ++ (sqc :: (c ++ (sqc :: dpt2)))
      = pageContentSq ++ (c ++ (sqc :: dpt2)) := by
    simp [pageContentSq, pcChunk]
  have htw : (c ++ (sqc :: dpt2)).takeWhile (· ≠ sqc) = c := by
    rw [takeWhile_append_of_all _ c _ (fun x hx => by
      simp only [ne_eq, decide_not]
      simp
      exact fun hxx => hs (hxx ▸ hx))]
    simp
  have h1 : searchQuoted pageContentSq sqc
      (docMarker ++ (pcChunk ++ (sqc :: (c ++ (sqc :: dpt2))))) = some c := by
    rw [show pageContentSq = 'p' :: ("age_content=".toList ++ [sqc]) from rfl]
    rw [searchQuoted_skip_of_head_notin 'p' _ sqc docMarker _ (by decide)]
    rw [← show pageContentSq = 'p' :: ("age_content=".toList ++ [sqc]) from rfl]
    rw [hsplit]
    rw [searchQuoted_found _ _ _ (by decide) (by
      rw [htw]
      simp)]
    rw [htw]
  unfold contentOf
  rw [h1]

theorem c2_metaOf (c : List Char) :
    (metadataOf (docMarker ++ (pcChunk ++ (sqc :: (c ++ (sqc :: dpt2)))))).isSome := by
  have hsplit : docMarker ++ (pcChunk ++ (sqc :: (c ++ (sqc :: dpt2))))
      = ((docMarker ++ pcChunk ++ sqc :: c ++ [sqc]) ++ dpt2) := by
    simp [List.append_assoc]
  rw [hsplit]
  have h1 := searchMeta1_append_isSome (docMarker ++ pcChunk ++ sqc :: c ++ [sqc]) dpt2
    (by decide)
  unfold metadataOf
  rcases hx : searchMeta1 ((docMarker ++ pcChunk ++ sqc :: c ++ [sqc]) ++ dpt2) with _ | g
  · rw [hx] at h1
    simp at h1
  · simp

theorem parseDocLoop_residual : ∀ f, parseDocLoop f (")]".toList) 1 = [] := by
  intro f
  cases f with
  | zero => rfl
  | succ g =>
    unfold parseDocLoop
    rw [if_neg (by decide)]
    rw [show firstOccur docMarker ")]".toList = none from by decide]

theorem c2_pdl (c : List Char) (hs : sqc ∉ c) (hb : bslc ∉ c) :
    ∃ m, parse_document_list ('[' :: c2Body c) = [(c, m, "0.5".toList)] := by
  have hocc : firstOccur docMarker ('[' :: c2Body c) = some 2 := by
    have hL : '[' :: c2Body c
        = '[' :: '(' :: (("Document(".toList ++ pcChunk) ++ (sqc :: (c ++ c2Tail))) := by
      simp [c2Body, c2Mid]
    rw [hL]
    rw [firstOccur_cons_no _ _ _ (by
      rw [show docMarker = 'D' :: "ocument(".toList from rfl]
      simp [List.isPrefixOf])]
    rw [firstOccur_cons_no _ _ _ (by
      rw [show docMarker = 'D' :: "ocument(".toList from rfl]
      simp [List.isPrefixOf])]
    rw [List.append_assoc]
    rw [firstOccur_eq_zero_of_starts _ _ (by decide) (by
      rw [List.isPrefixOf_iff_prefix]
      exact List.prefix_append _ _)]
    rfl
  have hatDoc : List.drop 2 ('[' :: c2Body c)
      = docMarker ++ (pcChunk ++ (sqc :: (c ++ c2Tail))) := by
    simp [c2Body, c2Mid, docMarker, List.append_assoc]
  have hchar : charAt (docMarker ++ (pcChunk ++ (sqc :: (c ++ c2Tail)))) 8 = some '(' := by
    rw [charAt_append_left _ _ 8 (by decide)]
    decide
  have hdrop9 : List.drop 9 (docMarker ++ (pcChunk ++ (sqc :: (c ++ c2Tail))))
      = pcChunk ++ (sqc :: (c ++ c2Tail)) := by
    rw [show (9 : Nat) = docMarker.length from by decide, List.drop_left]
  have hscan : scanDelim '(' ')' (pcChunk ++ (sqc :: (c ++ c2Tail))) (some '(') none 1
      = some (c.length + 50) := by
    obtain ⟨p1, hp1, e1⟩ := scanDelim_skip_plain '(' ')' pcChunk (sqc :: (c ++ c2Tail))
      (some '(') none 1 (by decide) (by decide) (by decide)
    rw [e1, scanDelim_open_quote '(' ')' sqc (c ++ c2Tail) p1 1 (Or.inr rfl) hp1]
    obtain ⟨p2, hp2, e2⟩ := scanDelim_instring '(' ')' sqc c c2Tail (some sqc) 1
      (fun x hx => fun hxx => hs (hxx ▸ hx)) hb (by decide)
    rw [e2, c2Tail_scanP p2 hp2]
    simp [pcChunk]
    omega
  have hdm : docMarker.length = 9 := by decide
  have hpcl : pcChunk.length = 13 := by decide
  have hdocPart : List.take (9 + (c.length + 50)) (docMarker ++ (pcChunk ++ (sqc :: (c ++ c2Tail))))
      = docMarker ++ (pcChunk ++ (sqc :: (c ++ (sqc :: dpt2)))) := by
    rw [show 9 + (c.length + 50) = docMarker.length + (pcChunk.length + ((c.length + 36) + 1)) from by omega]
    rw [List.take_append, List.take_append]
    rw [List.take_succ_cons]
    rw [show (c ++ c2Tail).take (c.length + 36) = c ++ c2Tail.take 36 from List.take_append 36]
    rw [show c2Tail.take 36 = sqc :: dpt2 from by decide]
  have hafterEnv : List.drop (9 + (c.length + 50)) (docMarker ++ (pcChunk ++ (sqc :: (c ++ c2Tail))))
      = ", 0.5)]".toList := by
    rw [show 9 + (c.length + 50) = docMarker.length + (pcChunk.length + (1 + (c.length + 36))) from by omega]
    rw [drop_append_plus, drop_append_plus]
    rw [show (1 : Nat) + (c.length + 36) = (c.length + 36) + 1 from by omega]
    rw [List.drop_succ_cons]
    rw [show List.drop (c.length + 36) (c ++ c2Tail) = c2Tail.drop 36 from drop_append_plus c c2Tail 36]
    decide
  unfold parse_document_list
  unfold parseDocLoop
  rw [if_neg (by simp)]
  rw [hocc]
  dsimp only
  rw [hatDoc, hchar, hdrop9, hscan]
  dsimp only
  rw [hdocPart, hafterEnv]
  rw [show List.drop (List.takeWhile (fun c => decide (c = ' ' ∨ c = ',' ∨ c = ')'))
      ", 0.5)]".toList).length ", 0.5)]".toList = "0.5)]".toList from by decide]
  rw [show matchDecimal "0.5)]".toList = some "0.5".toList from by decide]
  dsimp only
  rw [c2_contentOf c hs]
  obtain ⟨g, hg⟩ := Option.isSome_iff_exists.mp (c2_metaOf c)
  rw [hg]
  dsimp only
  rw [show List.drop ("0.5".toList).length "0.5)]".toList = ")]".toList from by decide]
  simp only [Nat.zero_add]
  rw [parseDocLoop_residual]
  rw [pyUnescape_id c hb]
  exact ⟨g, by simp⟩

/-- C2, amended: for every record of the template shape whose single-quoted
payload `c` contains a literal `]`, `)` or the opposite quote `"` (and, being
a well-formed single-quoted payload, no `'`, no backslash, no newline), the
extractor still produces exactly one entry, and its `document_content` is the
full payload text up to the 500-character preview truncation (payloads longer
than 500 characters are stored as their first 500 characters plus `...`): the
bracket and parenthesis scanners do not count delimiters occurring inside the
quoted substring. -/
theorem claim_C2 (c : List Char) (h1 : sqc ∉ c) (h2 : bslc ∉ c) (h3 : nlc ∉ c)
    (h4 : ']' ∈ c ∨ ')' ∈ c ∨ dqc ∈ c) :
    ∃ e : RelevanceScoreEntry,
      parse_log_content (c2Line c) = [e] ∧
      e.document_content = (if 500 < c.length then c.take 500 ++ "...".toList else c) ∧
      e.similarity_score = ⟨5, 1⟩ := by
  have hnlA : nlc ∉ relevance_warning_start := by decide
  have hnlB : nlc ∉ c2Mid := by decide
  have hnlC : nlc ∉ c2Tail := by decide
  have hnl : nlc ∉ c2Line c := by
    intro hx
    simp only [c2Line, c2Body, List.mem_append, List.mem_cons] at hx
    rcases hx with h | h | h | h | h
    · exact hnlA h
    · exact hnlB h
    · exact (by decide : nlc ≠ sqc) h
    · exact h3 h
    · exact hnlC h
  have hfind : findSub (c2Line c) relevance_warning_start = some 0 :=
    firstOccur_eq_zero_of_starts _ _ (by decide) (by
      rw [List.isPrefixOf_iff_prefix]
      exact List.prefix_append _ _)
  have hcont := containsSub_relevancePhrase_of_start (c2Line c) 0 hfind
  have hchar46 : charAt (c2Line c) 46 = some '[' := by
    show charAt (relevance_warning_start ++ c2Body c) 46 = some '['
    rw [charAt_append_left _ _ 46 (by decide)]
    decide
  have hdrop47 : (c2Line c).drop 47 = c2Body c := by
    show (relevance_warning_start ++ c2Body c).drop 47 = c2Body c
    rw [show (47 : Nat) = relevance_warning_start.length from by decide, List.drop_left]
  have hdrop46 : (c2Line c).drop 46 = '[' :: c2Body c := by
    show (relevance_warning_start ++ c2Body c).drop 46 = '[' :: c2Body c
    rw [List.drop_append_of_le_length (by decide)]
    rw [show relevance_warning_start.drop 46 = ['['] from by decide]
    rfl
  have hscanB : scanDelim '[' ']' (c2Body c) (some '[') none 1 = some (c.length + 67) := by
    show scanDelim '[' ']' (c2Mid ++ (sqc :: (c ++ c2Tail))) (some '[') none 1 = _
    obtain ⟨p1, hp1, e1⟩ := scanDelim_skip_plain '[' ']' c2Mid (sqc :: (c ++ c2Tail))
      (some '[') none 1 (by decide) (by decide) (by decide)
    rw [e1, scanDelim_open_quote '[' ']' sqc (c ++ c2Tail) p1 1 (Or.inr rfl) hp1]
    obtain ⟨p2, hp2, e2⟩ := scanDelim_instring '[' ']' sqc c c2Tail (some sqc) 1
      (fun x hx hxx => h1 (hxx ▸ hx)) h2 (by decide)
    rw [e2, c2Tail_scanB p2 hp2]
    have hpc : pcChunk.length = 13 := by decide
    simp [c2Mid, List.length_append, hpc]
    omega
  obtain ⟨m, hpdl⟩ := c2_pdl c h1 h2
  have hlen : ('[' :: c2Body c).length = c.length + 68 := by
    have hm : c2Mid.length = 23 := by decide
    have ht : c2Tail.length = 43 := by decide
    simp [c2Body, List.length_append, hm, ht]
    omega
  have hqual : searchKeyNum qualityLit (fun c => c.isDigit ∨ c = '.') c = none := by
    rw [show qualityLit = sqc :: ("quality_score".toList ++ [sqc, ':']) from rfl]
    exact searchKeyNum_head_notin _ _ _ c h1
  unfold parse_log_content
  rw [splitLines_single _ hnl]
  simp only [List.flatMap_cons, List.flatMap_nil, List.append_nil]
  rw [if_pos hcont]
  unfold extract_relevance_scores_from_line
  simp only [hfind]
  rw [show (0 + relevance_warning_start.length - 1 : Nat) = 46 from by decide]
  rw [show (46 + 1 : Nat) = 47 from by norm_num]
  rw [hchar46, hdrop47, hscanB]
  dsimp only
  rw [hdrop46]
  rw [show (c.length + 67 + 1 : Nat) = c.length + 68 from by omega]
  rw [← hlen, List.take_length]
  rw [hpdl]
  simp only [List.flatMap_cons, List.flatMap_nil, List.append_nil]
  unfold buildEntry
  rw [show pyFloat "0.5".toList = some (⟨5, 1⟩ : Dec) from by decide]
  dsimp only
  rw [hqual]
  exact ⟨_, rfl, rfl, rfl⟩

/-- A payload with `]`, `)` and `"` inside. -/
def c2WitnessPayload : List Char := "x]".toList ++ [dqc] ++ ")y".toList

theorem claim_C2_witness :
    ∃ e : RelevanceScoreEntry,
      parse_log_content (c2Line c2WitnessPayload) = [e] ∧
      e.document_content =
        (if 500 < c2WitnessPayload.length
         then c2WitnessPayload.take 500 ++ "...".toList else c2WitnessPayload) ∧
      e.similarity_score = ⟨5, 1⟩ :=
  claim_C2 c2WitnessPayload (by decide) (by decide) (by decide) (Or.inl (by decide))

/-! ## Serialization layer: `format_as_json` / `format_as_csv`

`format_as_json` models `json.dumps(formatted_entries, indent=2,
ensure_ascii=False)` applied to the list of per-entry dicts the code builds
(same keys, same order, dict values rendered as JSON object members), and
`format_as_csv` models the `csv.DictWriter` output (excel dialect:
`QUOTE_MINIMAL` with doubled quote characters, `\r\n` line ends, `None`
rendered as the empty field, floats via their decimal representation). -/

def natToDigitsAux : Nat → Nat → List Char → List Char
  | 0, _, acc => acc
  | fuel + 1, n, acc =>
    if n < 10 then Char.ofNat (48 + n % 10) :: acc
    else natToDigitsAux fuel (n / 10) (Char.ofNat (48 + n % 10) :: acc)

def natToDigits (n : Nat) : List Char := natToDigitsAux (n + 1) n []

/-- `repr` of the exact-decimal stand-in for a Python float: sign, digits with
a decimal point placed `exp` digits from the right (integral values get a
trailing `.0`, as `repr(2.0) = '2.0'`). -/
def renderDec (d : Dec) : List Char :=
  let ds0 := natToDigits d.mant.natAbs
  let ds := if ds0.length < d.exp + 1 then
    List.replicate (d.exp + 1 - ds0.length) '0' ++ ds0 else ds0
  let body :=
    if d.exp = 0 then ds ++ ['.', '0']
    else ds.take (ds.length - d.exp) ++ '.' :: ds.drop (ds.length - d.exp)
  if d.mant < 0 then '-' :: body else body

def hexDigitChar (n : Nat) : Char := Char.ofNat (if n < 10 then 48 + n else 87 + n)

/-- `json.dumps` string escaping with `ensure_ascii=False`. -/
def escapeJsonChar (c : Char) : List Char :=
  if c = dqc then [bslc, dqc]
  else if c = bslc then [bslc, bslc]
  else if c = nlc then [bslc, 'n']
  else if c = '\t' then [bslc, 't']
  else if c = crc then [bslc, 'r']
  else if c = Char.ofNat 8 then [bslc, 'b']
  else if c = Char.ofNat 12 then [bslc, 'f']
  else if c.toNat < 32 then
    [bslc, 'u', '0', '0', hexDigitChar (c.toNat / 16), hexDigitChar (c.toNat % 16)]
  else [c]

def escapeJson (s : List Char) : List Char := s.flatMap escapeJsonChar

def renderJStr (s : List Char) : List Char := dqc :: (escapeJson s ++ [dqc])

def renderOptStr : Option (List Char) → List Char
  | none => "null".toList
  | some s => renderJStr s

def renderOptDec : Option Dec → List Char
  | none => "null".toList
  | some d => renderDec d

def renderMetaMembers : List (List Char × List Char) → List Char
  | [] => []
  | [(k, v)] => "      ".toList ++ (renderJStr k ++ (':' :: ' ' :: renderJStr v))
  | (k, v) :: rest =>
    "      ".toList ++ (renderJStr k ++ (':' :: ' ' :: renderJStr v)) ++
      (',' :: nlc :: renderMetaMembers rest)

def renderMeta : List (List Char × List Char) → List Char
  | [] => [lbc, rbc]
  | m => lbc :: nlc :: (renderMetaMembers m ++ (nlc :: ("    ".toList ++ [rbc])))

def memberSep (key : String) : List Char :=
  "    ".toList ++ (renderJStr key.toList ++ [':', ' '])

def renderEntryObj (e : RelevanceScoreEntry) : List Char :=
  lbc :: nlc ::
  (memberSep "document_content" ++ (renderJStr e.document_content ++ (',' :: nlc ::
  (memberSep "metadata" ++ (renderMeta e.metadata ++ (',' :: nlc ::
  (memberSep "similarity_score" ++ (renderDec e.similarity_score ++ (',' :: nlc ::
  (memberSep "quality_score" ++ (renderOptDec e.quality_score ++ (',' :: nlc ::
  (memberSep "timestamp" ++ (renderOptStr e.timestamp ++ (',' :: nlc ::
  (memberSep "source_file" ++ (renderOptStr e.source_file ++ (',' :: nlc ::
  (memberSep "source_line" ++ (renderJStr e.source_line ++ (nlc :: ("  ".toList ++ [rbc]))))))))))))))))))))))

def renderEntries : List RelevanceScoreEntry → List Char
  | [] => []
  | [e] => "  ".toList ++ renderEntryObj e
  | e :: rest => "  ".toList ++ renderEntryObj e ++ (',' :: nlc :: renderEntries rest)

def format_as_json (entries : List RelevanceScoreEntry) : List Char :=
  match entries with
  | [] => ['[', ']']
  | _ => '[' :: nlc :: (renderEntries entries ++ (nlc :: [']']))

def collapseContent (s : List Char) : List Char :=
  (s.map fun ch => if ch = nlc then ' ' else ch).filter fun ch => ch ≠ crc

def csvNeedsQuote (s : List Char) : Bool :=
  s.any fun ch => ch = ',' ∨ ch = dqc ∨ ch = nlc ∨ ch = crc

def csvField (s : List Char) : List Char :=
  if csvNeedsQuote s then
    dqc :: ((s.flatMap fun ch => if ch = dqc then [dqc, dqc] else [ch]) ++ [dqc])
  else s

def csvOpt : Option (List Char) → List Char
  | none => []
  | some s => csvField s

def csvRow (e : RelevanceScoreEntry) : List Char :=
  csvField (collapseContent e.document_content) ++ ',' ::
  (csvOpt e.source_file ++ ',' ::
  (csvField (renderDec e.similarity_score) ++ ',' ::
  ((match e.quality_score with
    | none => []
    | some d => csvField (renderDec d)) ++ ',' ::
  (csvOpt e.timestamp ++ [crc, nlc]))))

def csvHeader : List Char :=
  "document_content,source_file,similarity_score,quality_score,timestamp".toList
  ++ [crc, nlc]

def format_as_csv (entries : List RelevanceScoreEntry) : List Char :=
  match entries with
  | [] => []
  | _ => csvHeader ++ entries.flatMap csvRow

/-! ## A JSON parser (the re-parsing side of the round-trip claim) -/

inductive JValue where
  | jnull
  | jbool (b : Bool)
  | jnum (d : Dec)
  | jstr (s : List Char)
  | jarr (elems : List JValue)
  | jobj (members : List (List Char × JValue))

def JValue.getField : JValue → List Char → Option JValue
  | .jobj ms, k => (ms.find? fun p => p.1 == k).map (·.2)
  | _, _ => none

def isWsChar (c : Char) : Bool := c = ' ' ∨ c = nlc ∨ c = '\t' ∨ c = crc

def skipWs (s : List Char) : List Char := s.dropWhile isWsChar

def parseHexDigit (c : Char) : Option Nat :=
  if '0' ≤ c ∧ c ≤ '9' then some (c.toNat - 48)
  else if 'a' ≤ c ∧ c ≤ 'f' then some (c.toNat - 87)
  else if 'A' ≤ c ∧ c ≤ 'F' then some (c.toNat - 55)
  else none

def parseJStrAux : List Char → List Char → Option (List Char × List Char)
  | [], _ => none
  | c :: t, acc =>
    if c = dqc then some (acc.reverse, t)
    else if c = bslc then
      match t with
      | [] => none
      | e :: t2 =>
        if e = dqc then parseJStrAux t2 (dqc :: acc)
        else if e = bslc then parseJStrAux t2 (bslc :: acc)
        else if e = '/' then parseJStrAux t2 ('/' :: acc)
        else if e = 'n' then parseJStrAux t2 (nlc :: acc)
        else if e = 't' then parseJStrAux t2 ('\t' :: acc)
        else if e = 'r' then parseJStrAux t2 (crc :: acc)
        else if e = 'b' then parseJStrAux t2 (Char.ofNat 8 :: acc)
        else if e = 'f' then parseJStrAux t2 (Char.ofNat 12 :: acc)
        else if e = 'u' then
          match t2 with
          | h1 :: h2 :: h3 :: h4 :: t3 =>
            match parseHexDigit h1, parseHexDigit h2, parseHexDigit h3, parseHexDigit h4 with
            | some a, some b, some c2, some d2 =>
              parseJStrAux t3 (Char.ofNat (((a * 16 + b) * 16 + c2) * 16 + d2) :: acc)
            | _, _, _, _ => none
          | _ => none
        else none
    else parseJStrAux t (c :: acc)

def applyExp (d : Dec) (esNeg : Bool) (en : Nat) : Dec :=
  if esNeg then ⟨d.mant, d.exp + en⟩
  else if en ≤ d.exp then ⟨d.mant, d.exp - en⟩
  else ⟨d.mant * (10 : Int) ^ (en - d.exp), 0⟩

def parseExpPart (neg : Bool) (ip fp : List Char) : List Char → Option (Dec × List Char)
  | [] => some (mkDec neg ip fp, [])
  | c :: t =>
    if c = 'e' ∨ c = 'E' then
      let signed : Bool × List Char :=
        match t with
        | c2 :: t2 => if c2 = '-' then (true, t2)
                      else if c2 = '+' then (false, t2) else (false, t)
        | [] => (false, t)
      let ed := signed.2.takeWhile Char.isDigit
      if ed = [] then none
      else some (applyExp (mkDec neg ip fp) signed.1 (digitsToNat ed),
        signed.2.dropWhile Char.isDigit)
    else some (mkDec neg ip fp, c :: t)

def parseJNum (s : List Char) : Option (Dec × List Char) :=
  let signed : Bool × List Char :=
    match s with
    | c :: t => if c = '-' then (true, t) else (false, s)
    | [] => (false, s)
  let ip := signed.2.takeWhile Char.isDigit
  if ip = [] then none
  else
    match signed.2.dropWhile Char.isDigit with
    | '.' :: t2 =>
      let fp := t2.takeWhile Char.isDigit
      if fp = [] then none
      else parseExpPart signed.1 ip fp (t2.dropWhile Char.isDigit)
    | r1 => parseExpPart signed.1 ip [] r1

inductive PMode where
  | val
  | elems (acc : List JValue)
  | members (acc : List (List Char × JValue))

inductive PRes where
  | v (x : JValue)
  | vs (xs : List JValue)
  | ms (xs : List (List Char × JValue))

def parseJ : Nat → PMode → List Char → Option (PRes × List Char)
  | 0, _, _ => none
  | fuel + 1, PMode.val, s =>
    match skipWs s with
    | [] => none
    | c :: t =>
      if c = dqc then (parseJStrAux t []).map fun r => (PRes.v (JValue.jstr r.1), r.2)
      else if c = '[' then
        match skipWs t with
        | ']' :: r => some (PRes.v (JValue.jarr []), r)
        | _ =>
          match parseJ fuel (PMode.elems []) t with
          | some (PRes.vs xs, r) => some (PRes.v (JValue.jarr xs), r)
          | _ => none
      else if c = lbc then
        match skipWs t with
        | [] => none
        | c2 :: r =>
          if c2 = rbc then some (PRes.v (JValue.jobj []), r)
          else
            match parseJ fuel (PMode.members []) t with
            | some (PRes.ms xs, r2) => some (PRes.v (JValue.jobj xs), r2)
            | _ => none
      else if "null".toList.isPrefixOf (c :: t) then
        some (PRes.v JValue.jnull, (c :: t).drop 4)
      else if "true".toList.isPrefixOf (c :: t) then
        some (PRes.v (JValue.jbool true), (c :: t).drop 4)
      else if "false".toList.isPrefixOf (c :: t) then
        some (PRes.v (JValue.jbool false), (c :: t).drop 5)
      else (parseJNum (c :: t)).map fun r => (PRes.v (JValue.jnum r.1), r.2)
  | fuel + 1, PMode.elems acc, s =>
    match parseJ fuel PMode.val s with
    | some (PRes.v x, r) =>
      (match skipWs r with
       | ',' :: r2 => parseJ fuel (PMode.elems (x :: acc)) r2
       | ']' :: r2 => some (PRes.vs (x :: acc).reverse, r2)
       | _ => none)
    | _ => none
  | fuel + 1, PMode.members acc, s =>
    match skipWs s with
    | [] => none
    | c :: t =>
      if c = dqc then
        match parseJStrAux t [] with
        | some (key, r) =>
          (match skipWs r with
           | ':' :: r2 =>
             (match parseJ fuel PMode.val r2 with
              | some (PRes.v x, r3) =>
                (match skipWs r3 with
                 | ',' :: r4 => parseJ fuel (PMode.members ((key, x) :: acc)) r4
                 | c5 :: r4 =>
                   if c5 = rbc then some (PRes.ms ((key, x) :: acc).reverse, r4)
                   else none
                 | [] => none)
              | _ => none)
           | _ => none)
        | none => none
      else none

/-- `json.loads`: parse one value and require only whitespace after it. -/
def parseJson (s : List Char) : Option JValue :=
  match parseJ (s.length + 1) PMode.val s with
  | some (PRes.v x, r) => if skipWs r = [] then some x else none
  | _ => none

/-- The number the parser recovers from `renderDec d` (a trailing `.0` is
added to integral values, so their mantissa comes back scaled by ten); its
rational value is unchanged. -/
def decNormJ (d : Dec) : Dec := if d.exp = 0 then ⟨d.mant * 10, 1⟩ else d

def optDecJson : Option Dec → JValue
  | none => JValue.jnull
  | some d => JValue.jnum (decNormJ d)

def optStrJson : Option (List Char) → JValue
  | none => JValue.jnull
  | some s => JValue.jstr s

/-- The JSON value `format_as_json` serializes one entry to. -/
def entryJson (e : RelevanceScoreEntry) : JValue :=
  JValue.jobj
    [("document_content".toList, JValue.jstr e.document_content),
     ("metadata".toList, JValue.jobj (e.metadata.map fun p => (p.1, JValue.jstr p.2))),
     ("similarity_score".toList, JValue.jnum (decNormJ e.similarity_score)),
     ("quality_score".toList, optDecJson e.quality_score),
     ("timestamp".toList, optStrJson e.timestamp),
     ("source_file".toList, optStrJson e.source_file),
     ("source_line".toList, JValue.jstr e.source_line)]

/-! ## C10: round-trip lemmas — digits and numbers -/

theorem digitsToNat_foldl_init (init : Nat) :
    ∀ l : List Char,
      l.foldl (fun a c => a * 10 + (c.toNat - 48)) init
        = init * 10 ^ l.length + digitsToNat l := by
  intro l
  induction l generalizing init with
  | nil => simp [digitsToNat]
  | cons c t ih =>
    have h1 : digitsToNat (c :: t)
        = (c.toNat - 48) * 10 ^ t.length + digitsToNat t := by
      rw [show digitsToNat (c :: t)
          = List.foldl (fun a c => a * 10 + (c.toNat - 48)) (0 * 10 + (c.toNat - 48)) t
          from rfl, ih]
      norm_num
    rw [List.foldl_cons, ih (init * 10 + (c.toNat - 48)), h1, List.length_cons]
    ring

theorem digitsToNat_append (a b : List Char) :
    digitsToNat (a ++ b) = digitsToNat a * 10 ^ b.length + digitsToNat b := by
  unfold digitsToNat
  rw [List.foldl_append]
  rw [show a.foldl (fun a c => a * 10 + (c.toNat - 48)) 0 = digitsToNat a from rfl]
  exact digitsToNat_foldl_init (digitsToNat a) b

theorem digitsToNat_replicate_zero (k : Nat) :
    digitsToNat (List.replicate k '0') = 0 := by
  induction k with
  | zero => rfl
  | succ n ih =>
    have : digitsToNat (List.replicate (n + 1) '0')
        = digitsToNat (List.replicate n '0' ++ ['0']) := by
      rw [← List.replicate_succ' n '0']
    rw [this, digitsToNat_append, ih]
    decide

theorem natToDigitsAux_spec :
    ∀ fuel n acc, n < 10 ^ (fuel + 1) →
      ∃ ds : List Char, natToDigitsAux (fuel + 1) n acc = ds ++ acc ∧ ds ≠ [] ∧
        (∀ x ∈ ds, x.isDigit = true) ∧ digitsToNat ds = n := by
  intro fuel
  induction fuel with
  | zero =>
    intro n acc hn
    have hn10 : n < 10 := by simpa using hn
    refine ⟨[Char.ofNat (48 + n % 10)], ?_, by simp, ?_, ?_⟩
    · unfold natToDigitsAux
      rw [if_pos hn10]
      rfl
    · intro x hx
      simp at hx
      subst hx
      have h10 : n % 10 < 10 := Nat.mod_lt _ (by omega)
      interval_cases h : n % 10 <;> decide
    · have h10 : n % 10 = n := Nat.mod_eq_of_lt hn10
      rw [h10]
      have hlt : n < 10 := hn10
      interval_cases n <;> decide
  | succ f ih =>
    intro n acc hn
    by_cases h10 : n < 10
    · refine ⟨[Char.ofNat (48 + n % 10)], ?_, by simp, ?_, ?_⟩
      · unfold natToDigitsAux
        rw [if_pos h10]
        rfl
      · intro x hx
        simp at hx
        subst hx
        have hlt : n % 10 < 10 := Nat.mod_lt _ (by omega)
        interval_cases h : n % 10 <;> decide
      · have hmod : n % 10 = n := Nat.mod_eq_of_lt h10
        rw [hmod]
        interval_cases n <;> decide
    · have hdiv : n / 10 < 10 ^ (f + 1) := by
        rw [Nat.div_lt_iff_lt_mul (by omega : 0 < 10)]
        calc n < 10 ^ (f + 1 + 1) := hn
        _ = 10 ^ (f + 1) * 10 := by ring
      obtain ⟨ds', hds', hne', hdig', hval'⟩ :=
        ih (n / 10) (Char.ofNat (48 + n % 10) :: acc) hdiv
      refine ⟨ds' ++ [Char.ofNat (48 + n % 10)], ?_, by simp, ?_, ?_⟩
      · unfold natToDigitsAux
        rw [if_neg h10, hds']
        simp
      · intro x hx
        rcases List.mem_append.mp hx with h | h
        · exact hdig' x h
        · simp at h
          subst h
          have hlt : n % 10 < 10 := Nat.mod_lt _ (by omega)
          interval_cases h : n % 10 <;> decide
      · rw [digitsToNat_append, hval']
        have hlt : n % 10 < 10 := Nat.mod_lt _ (by omega)
        have hsingle : digitsToNat [Char.ofNat (48 + n % 10)] = n % 10 := by
          interval_cases h : n % 10 <;> decide
        rw [hsingle]
        simp
        omega

theorem natToDigits_spec (n : Nat) :
    natToDigits n ≠ [] ∧ (∀ x ∈ natToDigits n, x.isDigit = true) ∧
      digitsToNat (natToDigits n) = n := by
  have hn : n < 10 ^ (n + 1) := by
    calc n < 2 ^ n := Nat.lt_two_pow n
    _ ≤ 10 ^ n := Nat.pow_le_pow_left (by omega) _
    _ ≤ 10 ^ (n + 1) := Nat.pow_le_pow_right (by omega) (by omega)
  obtain ⟨ds, hds, hne, hdig, hval⟩ := natToDigitsAux_spec n n [] hn
  unfold natToDigits
  rw [hds]
  simpa using ⟨hne, hdig, hval⟩

def numBoundary : List Char → Prop
  | [] => True
  | c :: _ => c.isDigit = false ∧ c ≠ '.' ∧ c ≠ 'e' ∧ c ≠ 'E'

theorem parseExpPart_boundary (neg : Bool) (ip fp rest : List Char) (hb : numBoundary rest) :
    parseExpPart neg ip fp rest = some (mkDec neg ip fp, rest) := by
  cases rest with
  | nil => rfl
  | cons c t =>
    obtain ⟨_, _, he, hE⟩ := hb
    simp only [parseExpPart]
    rw [if_neg (by tauto)]

theorem isDigit_facts (x : Char) (h : x.isDigit = true) :
    x ≠ '-' ∧ x ≠ '.' ∧ isWsChar x = false ∧ x ≠ dqc ∧ x ≠ '[' ∧ x ≠ lbc ∧
    x ≠ 'n' ∧ x ≠ 't' ∧ x ≠ 'f' := by
  refine ⟨?_, ?_, ?_, ?_, ?_, ?_, ?_, ?_, ?_⟩
  case _ => intro heq; rw [heq] at h; exact absurd h (by decide)
  case _ => intro heq; rw [heq] at h; exact absurd h (by decide)
  case _ =>
    by_contra hws
    simp only [isWsChar, Bool.not_eq_false, decide_eq_true_eq] at hws
    rcases hws with h1 | h1 | h1 | h1 <;> (rw [h1] at h; exact absurd h (by decide))
  case _ => intro heq; rw [heq] at h; exact absurd h (by decide)
  case _ => intro heq; rw [heq] at h; exact absurd h (by decide)
  case _ => intro heq; rw [heq] at h; exact absurd h (by decide)
  case _ => intro heq; rw [heq] at h; exact absurd h (by decide)
  case _ => intro heq; rw [heq] at h; exact absurd h (by decide)
  case _ => intro heq; rw [heq] at h; exact absurd h (by decide)

theorem decNormJ_toRat (d : Dec) : (decNormJ d).toRat = d.toRat := by
  unfold decNormJ
  split
  · rename_i h
    simp [Dec.toRat, h]
    try push_cast
    try ring
  · rfl

theorem dropWhile_append_of_all (p : Char → Bool) (a b : List Char)
    (h : ∀ x ∈ a, p x = true) : (a ++ b).dropWhile p = b.dropWhile p := by
  induction a with
  | nil => simp
  | cons x t ih => simp_all [List.dropWhile_cons]

theorem parseJNum_digits (neg : Bool) (ip fp rest : List Char)
    (hip : ∀ x ∈ ip, x.isDigit = true) (hipne : ip ≠ [])
    (hfp : ∀ x ∈ fp, x.isDigit = true) (hfpne : fp ≠ [])
    (hb : numBoundary rest) :
    parseJNum ((if neg then ['-'] else []) ++ (ip ++ ('.' :: (fp ++ rest))))
      = some (mkDec neg ip fp, rest) := by
  have hdotdig : ('.').isDigit = false := by decide
  have htw1 : (ip ++ ('.' :: (fp ++ rest))).takeWhile Char.isDigit = ip := by
    rw [takeWhile_append_of_all _ _ _ hip]
    simp [List.takeWhile_cons, hdotdig]
  have hdw1 : (ip ++ ('.' :: (fp ++ rest))).dropWhile Char.isDigit
      = '.' :: (fp ++ rest) := by
    rw [dropWhile_append_of_all _ _ _ hip]
    simp [List.dropWhile_cons, hdotdig]
  have htwrest : rest.takeWhile Char.isDigit = [] := by
    cases rest with
    | nil => rfl
    | cons c t => simp [List.takeWhile_cons, hb.1]
  have hdwrest : rest.dropWhile Char.isDigit = rest := by
    cases rest with
    | nil => rfl
    | cons c t => simp [List.dropWhile_cons, hb.1]
  have htw2 : (fp ++ rest).takeWhile Char.isDigit = fp := by
    rw [takeWhile_append_of_all _ _ _ hfp, htwrest]
    simp
  have hdw2 : (fp ++ rest).dropWhile Char.isDigit = rest := by
    rw [dropWhile_append_of_all _ _ _ hfp, hdwrest]
  have hexp := parseExpPart_boundary neg ip fp rest hb
  cases neg with
  | true =>
    have hin : ((if (true : Bool) = true then ['-'] else [])
        ++ (ip ++ ('.' :: (fp ++ rest)))) = '-' :: (ip ++ ('.' :: (fp ++ rest))) := by
      simp
    rw [hin]
    unfold parseJNum
    simp [htw1, hdw1, htw2, hdw2, hipne, hfpne]
    exact hexp
  | false =>
    have hin : ((if (false : Bool) = true then ['-'] else [])
        ++ (ip ++ ('.' :: (fp ++ rest)))) = ip ++ ('.' :: (fp ++ rest)) := by
      simp
    rw [hin]
    obtain ⟨i0, ip', hip'⟩ : ∃ i0 ip', ip = i0 :: ip' := by
      cases ip with
      | nil => exact absurd rfl hipne
      | cons a b => exact ⟨a, b, rfl⟩
    have hi0 : i0.isDigit = true := hip i0 (hip' ▸ List.mem_cons_self i0 ip')
    have hi0ne : i0 ≠ '-' := (isDigit_facts i0 hi0).1
    rw [hip', List.cons_append]
    unfold parseJNum
    simp only [if_neg hi0ne]
    rw [← List.cons_append, ← hip']
    simp [htw1, hdw1, htw2, hdw2, hipne, hfpne]
    exact hexp

theorem parseJNum_renderDec (d : Dec) (rest : List Char) (hb : numBoundary rest) :
    parseJNum (renderDec d ++ rest) = some (decNormJ d, rest) := by
  obtain ⟨hne0, hdig0, hval0⟩ := natToDigits_spec d.mant.natAbs
  set ds0 := natToDigits d.mant.natAbs with hds0
  set ds : List Char := (if ds0.length < d.exp + 1 then
      List.replicate (d.exp + 1 - ds0.length) '0' ++ ds0 else ds0) with hds
  have hdig : ∀ x ∈ ds, x.isDigit = true := by
    rw [hds]
    split
    · intro x hx
      rcases List.mem_append.mp hx with h | h
      · rw [List.eq_of_mem_replicate h]; decide
      · exact hdig0 x h
    · exact hdig0
  have hval : digitsToNat ds = d.mant.natAbs := by
    rw [hds]
    split
    · rw [digitsToNat_append, digitsToNat_replicate_zero]
      simp [hval0]
    · exact hval0
  have hlen : d.exp + 1 ≤ ds.length := by
    rw [hds]
    split
    · rename_i hsplit
      rw [List.length_append, List.length_replicate]
      omega
    · rename_i hsplit
      rw [hds0] at hsplit ⊢
      omega
  have hdsne : ds ≠ [] := by
    intro hx
    rw [hx] at hlen
    simp at hlen
  have hrender : renderDec d =
      (if d.mant < 0 then ['-'] else []) ++
        (if d.exp = 0 then ds ++ ['.', '0']
         else ds.take (ds.length - d.exp) ++ '.' :: ds.drop (ds.length - d.exp)) := by
    rw [renderDec, hds, hds0]
    split <;> simp
  by_cases hexp : d.exp = 0
  · -- body = ds ++ ['.', '0'] = ds ++ ('.' :: (['0'] ++ []))
    have hshape : renderDec d ++ rest
        = (if (decide (d.mant < 0)) then ['-'] else []) ++ (ds ++ ('.' :: (['0'] ++ rest))) := by
      rw [hrender, if_pos hexp]
      by_cases hm : d.mant < 0 <;> simp [hm]
    rw [hshape, parseJNum_digits _ ds ['0'] rest hdig hdsne
      (by intro x hx; simp at hx; subst hx; decide) (by simp) hb]
    have h00 : digitsToNat ['0'] = 0 := by decide
    congr 1
    congr 1
    -- mkDec (decide (d.mant < 0)) ds ['0'] = decNormJ d
    unfold mkDec decNormJ
    rw [if_pos hexp]
    simp only [hval, h00, List.length_cons, List.length_nil, Nat.add_zero]
    congr 1
    by_cases hm : d.mant < 0
    · rw [if_pos (by simpa using hm)]
      omega
    · rw [if_neg (by simpa using hm)]
      omega
  · -- body = tk ++ '.' :: dr
    set tk := ds.take (ds.length - d.exp) with htk
    set dr := ds.drop (ds.length - d.exp) with hdr
    have htkdr : tk ++ dr = ds := List.take_append_drop _ ds
    have htkdig : ∀ x ∈ tk, x.isDigit = true := fun x hx =>
      hdig x (htkdr ▸ List.mem_append.mpr (Or.inl hx))
    have hdrdig : ∀ x ∈ dr, x.isDigit = true := fun x hx =>
      hdig x (htkdr ▸ List.mem_append.mpr (Or.inr hx))
    have htklen : tk.length = ds.length - d.exp := by
      rw [htk, List.length_take]
      omega
    have hdrlen : dr.length = d.exp := by
      rw [hdr, List.length_drop]
      omega
    have htkne : tk ≠ [] := by
      intro hx
      rw [hx] at htklen
      simp at htklen
      omega
    have hdrne : dr ≠ [] := by
      intro hx
      rw [hx] at hdrlen
      simp at hdrlen
      omega
    have hshape : renderDec d ++ rest
        = (if (decide (d.mant < 0)) then ['-'] else []) ++ (tk ++ ('.' :: (dr ++ rest))) := by
      rw [hrender, if_neg hexp, htk, hdr]
      by_cases hm : d.mant < 0 <;> simp [hm]
    rw [hshape, parseJNum_digits _ tk dr rest htkdig htkne hdrdig hdrne hb]
    congr 1
    congr 1
    unfold mkDec decNormJ
    rw [if_neg hexp]
    have hnum : digitsToNat tk * 10 ^ dr.length + digitsToNat dr = d.mant.natAbs := by
      rw [← digitsToNat_append, htkdr, hval]
    simp only [hnum]
    cases d with
    | mk m e =>
      have hdrlen2 : dr.length = e := hdrlen
      have hproj : (Dec.mk m e).mant = m := rfl
      congr 1
      · simp only [hproj]
        by_cases hm : m < 0
        · rw [if_pos (by simpa using hm)]
          omega
        · rw [if_neg (by simpa using hm)]
          omega

theorem parseJStrAux_escape (s : List Char) : ∀ (acc rest : List Char),
    parseJStrAux (escapeJson s ++ (dqc :: rest)) acc = some (acc.reverse ++ s, rest) := by
  induction s with
  | nil =>
    intro acc rest
    rw [show escapeJson [] ++ (dqc :: rest) = dqc :: rest by simp [escapeJson],
      parseJStrAux.eq_def]
    simp +decide
  | cons c t ih =>
    intro acc rest
    have hesc : escapeJson (c :: t) = escapeJsonChar c ++ escapeJson t := by
      simp [escapeJson]
    have hkey : parseJStrAux (escapeJsonChar c ++ (escapeJson t ++ dqc :: rest)) acc
        = parseJStrAux (escapeJson t ++ dqc :: rest) (c :: acc) := by
      by_cases h8 : c.toNat < 32
      · obtain ⟨n, hn, rfl⟩ : ∃ n, n < 32 ∧ c = Char.ofNat n :=
          ⟨c.toNat, h8, (Char.ofNat_toNat c).symm⟩
        interval_cases n <;>
          (simp +decide [escapeJsonChar, hexDigitChar]
           rw [parseJStrAux.eq_def]
           simp +decide [parseHexDigit, nlc, crc, dqc, bslc])
      · by_cases h1 : c = dqc
        · subst h1
          simp +decide [escapeJsonChar]
          rw [parseJStrAux.eq_def]
          simp +decide
        by_cases h2 : c = bslc
        · subst h2
          simp +decide [escapeJsonChar]
          rw [parseJStrAux.eq_def]
          simp +decide
        have e1 : ¬ c = nlc := fun h => h8 (by rw [h]; decide)
        have e2 : ¬ c = '\t' := fun h => h8 (by rw [h]; decide)
        have e3 : ¬ c = crc := fun h => h8 (by rw [h]; decide)
        have e4 : ¬ c = Char.ofNat 8 := fun h => h8 (by rw [h]; decide)
        have e5 : ¬ c = Char.ofNat 12 := fun h => h8 (by rw [h]; decide)
        rw [show escapeJsonChar c = [c] by
          simp only [escapeJsonChar, if_neg h1, if_neg h2, if_neg e1, if_neg e2, if_neg e3,
            if_neg e4, if_neg e5, if_neg h8]]
        rw [show ([c] ++ (escapeJson t ++ dqc :: rest)) = c :: (escapeJson t ++ dqc :: rest)
          from by simp]
        rw [parseJStrAux.eq_def]
        simp [h1, h2]
    rw [hesc, List.append_assoc, hkey, ih (c :: acc) rest]
    simp

theorem skipWs_cons_ws (c : Char) (h : isWsChar c = true) (s : List Char) :
    skipWs (c :: s) = skipWs s := by
  simp [skipWs, List.dropWhile, h]

theorem skipWs_cons_not (c : Char) (h : isWsChar c = false) (s : List Char) :
    skipWs (c :: s) = c :: s := by
  simp [skipWs, List.dropWhile, h]

theorem skipWs_append_ws (pre : List Char) (h : ∀ c ∈ pre, isWsChar c = true) :
    ∀ s : List Char, skipWs (pre ++ s) = skipWs s := by
  induction pre with
  | nil => intro s; rfl
  | cons c t ih =>
    intro s
    rw [List.cons_append, skipWs_cons_ws c (h c (by simp)),
      ih (fun x hx => h x (by simp [hx]))]

theorem parseJ_val_str (fuel : Nat) (pre s rest : List Char)
    (hpre : skipWs pre = dqc :: (escapeJson s ++ (dqc :: rest))) :
    parseJ (fuel + 1) PMode.val pre = some (PRes.v (JValue.jstr s), rest) := by
  simp only [parseJ, hpre]
  simp [parseJStrAux_escape s [] rest]

theorem parseJ_val_null (fuel : Nat) (pre rest : List Char)
    (hpre : skipWs pre = 'n' :: 'u' :: 'l' :: 'l' :: rest) :
    parseJ (fuel + 1) PMode.val pre = some (PRes.v JValue.jnull, rest) := by
  simp only [parseJ, hpre]
  simp +decide [List.isPrefixOf]

theorem renderDec_head (d : Dec) :
    ∃ h t, renderDec d = h :: t ∧ (h = '-' ∨ h.isDigit = true) := by
  obtain ⟨hne0, hdig0, hval0⟩ := natToDigits_spec d.mant.natAbs
  set ds0 := natToDigits d.mant.natAbs with hds0
  set ds : List Char := (if ds0.length < d.exp + 1 then
      List.replicate (d.exp + 1 - ds0.length) '0' ++ ds0 else ds0) with hds
  have hdig : ∀ x ∈ ds, x.isDigit = true := by
    rw [hds]
    split
    · intro x hx
      rcases List.mem_append.mp hx with h | h
      · rw [List.eq_of_mem_replicate h]; decide
      · exact hdig0 x h
    · exact hdig0
  have hlen : d.exp + 1 ≤ ds.length := by
    rw [hds]
    split
    · rename_i hsplit
      rw [List.length_append, List.length_replicate]
      omega
    · rename_i hsplit
      rw [hds0] at hsplit ⊢
      omega
  have hdsne : ds ≠ [] := by
    intro hx
    rw [hx] at hlen
    simp at hlen
  have hrender : renderDec d =
      (if d.mant < 0 then ['-'] else []) ++
        (if d.exp = 0 then ds ++ ['.', '0']
         else ds.take (ds.length - d.exp) ++ '.' :: ds.drop (ds.length - d.exp)) := by
    rw [renderDec, hds, hds0]
    split <;> simp
  have hbody : ∃ b bt, (if d.exp = 0 then ds ++ ['.', '0']
      else ds.take (ds.length - d.exp) ++ '.' :: ds.drop (ds.length - d.exp)) = b :: bt
      ∧ b.isDigit = true := by
    split
    · cases hcs : ds with
      | nil => exact absurd hcs hdsne
      | cons a t =>
        exact ⟨a, t ++ ['.', '0'], by simp, hdig a (by rw [hcs]; simp)⟩
    · have htkne : ds.take (ds.length - d.exp) ≠ [] := by
        intro hx
        have := congrArg List.length hx
        rw [List.length_take] at this
        simp at this
        omega
      cases hcs : ds.take (ds.length - d.exp) with
      | nil => exact absurd hcs htkne
      | cons a t =>
        refine ⟨a, t ++ '.' :: ds.drop (ds.length - d.exp), by simp, ?_⟩
        have ha : a ∈ ds.take (ds.length - d.exp) := by rw [hcs]; simp
        exact hdig a (List.mem_of_mem_take ha)
  obtain ⟨b, bt, hb, hbd⟩ := hbody
  rw [hrender, hb]
  by_cases hm : d.mant < 0
  · rw [if_pos hm]
    exact ⟨'-', b :: bt, by simp, Or.inl rfl⟩
  · rw [if_neg hm]
    exact ⟨b, bt, by simp, Or.inr hbd⟩

theorem parseJ_val_num (fuel : Nat) (pre rest : List Char) (d : Dec)
    (hpre : skipWs pre = renderDec d ++ rest) (hb : numBoundary rest) :
    parseJ (fuel + 1) PMode.val pre
      = some (PRes.v (JValue.jnum (decNormJ d)), rest) := by
  obtain ⟨h, t, hht, hcl⟩ := renderDec_head d
  have hpre2 : skipWs pre = h :: (t ++ rest) := by rw [hpre, hht]; simp
  have hfacts : h ≠ dqc ∧ h ≠ '[' ∧ h ≠ lbc ∧ h ≠ 'n' ∧ h ≠ 't' ∧ h ≠ 'f' := by
    rcases hcl with hcl | hcl
    · subst hcl; refine ⟨by decide, by decide, by decide, by decide, by decide, by decide⟩
    · obtain ⟨_, _, _, q1, q2, q3, q4, q5, q6⟩ := isDigit_facts h hcl
      exact ⟨q1, q2, q3, q4, q5, q6⟩
  obtain ⟨f1, f2, f3, f4, f5, f6⟩ := hfacts
  simp only [parseJ, hpre2]
  simp only [if_neg f1, if_neg f2, if_neg f3]
  rw [if_neg (show ¬ "null".toList.isPrefixOf (h :: (t ++ rest)) from by
        rw [show "null".toList = ['n', 'u', 'l', 'l'] from rfl]
        simp [List.isPrefixOf, Ne.symm f4]),
      if_neg (show ¬ "true".toList.isPrefixOf (h :: (t ++ rest)) from by
        rw [show "true".toList = ['t', 'r', 'u', 'e'] from rfl]
        simp [List.isPrefixOf, Ne.symm f5]),
      if_neg (show ¬ "false".toList.isPrefixOf (h :: (t ++ rest)) from by
        rw [show "false".toList = ['f', 'a', 'l', 's', 'e'] from rfl]
        simp [List.isPrefixOf, Ne.symm f6])]
  rw [show h :: (t ++ rest) = renderDec d ++ rest from by rw [hht]; simp]
  rw [parseJNum_renderDec d rest hb]
  rfl

theorem parseJ_members_step (fl : Nat) (s k vt : List Char) (acc : List (List Char × JValue))
    (hs : skipWs s = dqc :: (escapeJson k ++ (dqc :: (':' :: vt)))) :
    parseJ (fl + 1 + 1) (PMode.members acc) s
      = match parseJ (fl + 1) PMode.val vt with
        | some (PRes.v x, r3) =>
          (match skipWs r3 with
           | ',' :: r4 => parseJ (fl + 1) (PMode.members ((k, x) :: acc)) r4
           | c5 :: r4 => if c5 = rbc then some (PRes.ms ((k, x) :: acc).reverse, r4) else none
           | [] => none)
        | _ => none := by
  rw [parseJ.eq_4]
  simp only [hs, eq_self_iff_true, if_true, parseJStrAux_escape k [] (':' :: vt),
    skipWs_cons_not ':' (by decide), List.reverse_nil, List.nil_append]

theorem parseJ_meta_members (ps : List (List Char × List Char)) :
    ∀ fuel acc rest, ps ≠ [] → ps.length + 1 ≤ fuel + 1 →
      parseJ (fuel + 1) (PMode.members acc)
        (nlc :: (renderMetaMembers ps ++ (nlc :: ("    ".toList ++ (rbc :: rest)))))
      = some (PRes.ms (acc.reverse ++ ps.map fun p => (p.1, JValue.jstr p.2)), rest) := by
  induction ps with
  | nil => intro fuel acc rest hne _; exact absurd rfl hne
  | cons p tail ih =>
    intro fuel acc rest _ hfuel
    obtain ⟨k, v⟩ := p
    have hfl : tail.length + 1 ≤ fuel := by
      simp [List.length_cons] at hfuel
      omega
    obtain ⟨fl, rfl⟩ : ∃ fl, fuel = fl + 1 := ⟨fuel - 1, by omega⟩
    set Z : List Char := nlc :: ("    ".toList ++ (rbc :: rest)) with hZ
    cases tail with
    | nil =>
      have hsk1 : skipWs (nlc :: (renderMetaMembers [(k, v)] ++ Z))
          = dqc :: (escapeJson k ++ (dqc :: (':' :: (' ' :: (renderJStr v ++ Z))))) := by
        rw [skipWs_cons_ws nlc (by decide)]
        rw [show renderMetaMembers [(k, v)] ++ Z
            = "      ".toList
              ++ (dqc :: (escapeJson k ++ (dqc :: (':' :: (' ' :: (renderJStr v ++ Z))))))
          from by simp [renderMetaMembers, renderJStr]]
        rw [skipWs_append_ws "      ".toList (by decide)]
        exact skipWs_cons_not dqc (by decide) _
      have hskv : skipWs (' ' :: (renderJStr v ++ Z)) = dqc :: (escapeJson v ++ (dqc :: Z)) := by
        rw [skipWs_cons_ws ' ' (by decide)]
        rw [show renderJStr v ++ Z = dqc :: (escapeJson v ++ (dqc :: Z))
          from by simp [renderJStr]]
        exact skipWs_cons_not dqc (by decide) _
      have hskZ : skipWs Z = rbc :: rest := by
        rw [hZ, skipWs_cons_ws nlc (by decide), skipWs_append_ws "    ".toList (by decide)]
        exact skipWs_cons_not rbc (by decide) _
      rw [parseJ_members_step fl _ k (' ' :: (renderJStr v ++ Z)) acc hsk1]
      rw [parseJ_val_str fl (' ' :: (renderJStr v ++ Z)) v Z hskv]
      simp +decide [hskZ]
    | cons q qs =>
      have hsk1 : skipWs (nlc :: (renderMetaMembers ((k, v) :: q :: qs) ++ Z))
          = dqc :: (escapeJson k ++ (dqc :: (':' :: (' ' :: (renderJStr v ++
              (',' :: nlc :: (renderMetaMembers (q :: qs) ++ Z))))))) := by
        rw [skipWs_cons_ws nlc (by decide)]
        rw [show renderMetaMembers ((k, v) :: q :: qs) ++ Z
            = "      ".toList
              ++ (dqc :: (escapeJson k ++ (dqc :: (':' :: (' ' :: (renderJStr v ++
                  (',' :: nlc :: (renderMetaMembers (q :: qs) ++ Z))))))))
          from by simp [renderMetaMembers, renderJStr]]
        rw [skipWs_append_ws "      ".toList (by decide)]
        exact skipWs_cons_not dqc (by decide) _
      have hskv : skipWs (' ' :: (renderJStr v ++
            (',' :: nlc :: (renderMetaMembers (q :: qs) ++ Z))))
          = dqc :: (escapeJson v ++ (dqc ::
              (',' :: nlc :: (renderMetaMembers (q :: qs) ++ Z)))) := by
        rw [skipWs_cons_ws ' ' (by decide)]
        rw [show renderJStr v ++ (',' :: nlc :: (renderMetaMembers (q :: qs) ++ Z))
            = dqc :: (escapeJson v ++ (dqc :: (',' :: nlc :: (renderMetaMembers (q :: qs) ++ Z))))
          from by simp [renderJStr]]
        exact skipWs_cons_not dqc (by decide) _
      rw [parseJ_members_step fl _ k
        (' ' :: (renderJStr v ++ (',' :: nlc :: (renderMetaMembers (q :: qs) ++ Z)))) acc hsk1]
      rw [parseJ_val_str fl _ v (',' :: nlc :: (renderMetaMembers (q :: qs) ++ Z)) hskv]
      have hih := ih fl ((k, JValue.jstr v) :: acc) rest (by simp)
        (by simp only [List.length_cons] at hfl ⊢; omega)
      simp +decide [skipWs_cons_not ',' (by decide), hih]

theorem skipWs_meta_cons (k v : List Char) (tail : List (List Char × List Char))
    (X : List Char) :
    ∃ Y, skipWs (nlc :: (renderMetaMembers ((k, v) :: tail) ++ X)) = dqc :: Y := by
  cases tail with
  | nil =>
    refine ⟨escapeJson k ++ (dqc :: (':' :: (' ' :: (renderJStr v ++ X)))), ?_⟩
    rw [skipWs_cons_ws nlc (by decide)]
    rw [show renderMetaMembers [(k, v)] ++ X
        = "      ".toList
          ++ (dqc :: (escapeJson k ++ (dqc :: (':' :: (' ' :: (renderJStr v ++ X))))))
      from by simp [renderMetaMembers, renderJStr]]
    rw [skipWs_append_ws "      ".toList (by decide)]
    exact skipWs_cons_not dqc (by decide) _
  | cons q qs =>
    refine ⟨escapeJson k ++ (dqc :: (':' :: (' ' :: (renderJStr v ++
      (',' :: nlc :: (renderMetaMembers (q :: qs) ++ X)))))), ?_⟩
    rw [skipWs_cons_ws nlc (by decide)]
    rw [show renderMetaMembers ((k, v) :: q :: qs) ++ X
        = "      ".toList
          ++ (dqc :: (escapeJson k ++ (dqc :: (':' :: (' ' :: (renderJStr v ++
              (',' :: nlc :: (renderMetaMembers (q :: qs) ++ X))))))))
      from by simp [renderMetaMembers, renderJStr]]
    rw [skipWs_append_ws "      ".toList (by decide)]
    exact skipWs_cons_not dqc (by decide) _

theorem parseJ_val_meta (ps : List (List Char × List Char)) (fuel : Nat)
    (pre rest : List Char)
    (hpre : skipWs pre = renderMeta ps ++ rest) (hfuel : ps.length + 1 ≤ fuel + 1) :
    parseJ (fuel + 1 + 1) PMode.val pre
      = some (PRes.v (JValue.jobj (ps.map fun p => (p.1, JValue.jstr p.2))), rest) := by
  cases ps with
  | nil =>
    have hpre2 : skipWs pre = lbc :: (rbc :: rest) := by
      rw [hpre]; simp [renderMeta]
    rw [parseJ.eq_2]
    simp +decide [hpre2, skipWs_cons_not rbc (by decide)]
  | cons p tail =>
    obtain ⟨k, v⟩ := p
    have hpre2 : skipWs pre
        = lbc :: (nlc :: (renderMetaMembers ((k, v) :: tail)
            ++ (nlc :: ("    ".toList ++ (rbc :: rest))))) := by
      rw [hpre]; simp [renderMeta]
    obtain ⟨Y, hY⟩ := skipWs_meta_cons k v tail (nlc :: ("    ".toList ++ (rbc :: rest)))
    have hmm := parseJ_meta_members ((k, v) :: tail) fuel [] rest (by simp) hfuel
    rw [parseJ.eq_2, hpre2]
    simp only [eq_false (by decide : ¬(lbc = dqc)), eq_false (by decide : ¬(lbc = '[')),
      eq_self_iff_true, if_true, if_false, hY, eq_false (by decide : ¬(dqc = rbc)),
      hmm, List.reverse_nil, List.nil_append]

theorem numBoundary_comma (X : List Char) : numBoundary (',' :: X) :=
  ⟨by decide, by decide, by decide, by decide⟩

theorem skipWs_sp_jstr (s X : List Char) :
    skipWs (' ' :: (renderJStr s ++ X)) = dqc :: (escapeJson s ++ (dqc :: X)) := by
  rw [skipWs_cons_ws ' ' (by decide)]
  rw [show renderJStr s ++ X = dqc :: (escapeJson s ++ (dqc :: X)) from by simp [renderJStr]]
  exact skipWs_cons_not dqc (by decide) _

theorem skipWs_sp_meta (ps : List (List Char × List Char)) (X : List Char) :
    skipWs (' ' :: (renderMeta ps ++ X)) = renderMeta ps ++ X := by
  rw [skipWs_cons_ws ' ' (by decide)]
  cases ps with
  | nil =>
    rw [show renderMeta [] ++ X = lbc :: (rbc :: X) from by simp [renderMeta]]
    exact skipWs_cons_not lbc (by decide) _
  | cons p tail =>
    rw [show renderMeta (p :: tail) ++ X
        = lbc :: ((nlc :: (renderMetaMembers (p :: tail)
            ++ (nlc :: ("    ".toList ++ [rbc])))) ++ X) from by simp [renderMeta]]
    exact skipWs_cons_not lbc (by decide) _

theorem skipWs_sp_dec (d : Dec) (X : List Char) :
    skipWs (' ' :: (renderDec d ++ X)) = renderDec d ++ X := by
  rw [skipWs_cons_ws ' ' (by decide)]
  obtain ⟨h, t, hht, hcl⟩ := renderDec_head d
  rw [hht, List.cons_append]
  refine skipWs_cons_not h ?_ _
  rcases hcl with rfl | hd
  · decide
  · exact (isDigit_facts h hd).2.2.1

theorem skipWs_sp_optDec (od : Option Dec) (X : List Char) :
    skipWs (' ' :: (renderOptDec od ++ X)) = renderOptDec od ++ X := by
  cases od with
  | none =>
    rw [skipWs_cons_ws ' ' (by decide)]
    rw [show renderOptDec none ++ X = 'n' :: ('u' :: ('l' :: ('l' :: X)))
      from by simp [renderOptDec]]
    exact skipWs_cons_not 'n' (by decide) _
  | some d => exact skipWs_sp_dec d X

theorem skipWs_sp_optStr (os : Option (List Char)) (X : List Char) :
    skipWs (' ' :: (renderOptStr os ++ X)) = renderOptStr os ++ X := by
  cases os with
  | none =>
    rw [skipWs_cons_ws ' ' (by decide)]
    rw [show renderOptStr none ++ X = 'n' :: ('u' :: ('l' :: ('l' :: X)))
      from by simp [renderOptStr]]
    exact skipWs_cons_not 'n' (by decide) _
  | some s =>
    rw [skipWs_cons_ws ' ' (by decide)]
    rw [show renderOptStr (some s) ++ X = dqc :: (escapeJson s ++ (dqc :: X))
      from by simp [renderOptStr, renderJStr]]
    exact skipWs_cons_not dqc (by decide) _

theorem parseJ_val_jstr (fuel : Nat) (pre s rest : List Char)
    (hpre : skipWs pre = renderJStr s ++ rest) :
    parseJ (fuel + 1) PMode.val pre = some (PRes.v (JValue.jstr s), rest) :=
  parseJ_val_str fuel pre s rest (by rw [hpre]; simp [renderJStr])

theorem parseJ_val_optDec (fuel : Nat) (pre rest : List Char) (od : Option Dec)
    (hpre : skipWs pre = renderOptDec od ++ rest) (hb : numBoundary rest) :
    parseJ (fuel + 1) PMode.val pre = some (PRes.v (optDecJson od), rest) := by
  cases od with
  | none => exact parseJ_val_null fuel pre rest (by rw [hpre]; rfl)
  | some d => exact parseJ_val_num fuel pre rest d (by rw [hpre]; rfl) hb

theorem parseJ_val_optStr (fuel : Nat) (pre rest : List Char) (os : Option (List Char))
    (hpre : skipWs pre = renderOptStr os ++ rest) :
    parseJ (fuel + 1) PMode.val pre = some (PRes.v (optStrJson os), rest) := by
  cases os with
  | none => exact parseJ_val_null fuel pre rest (by rw [hpre]; rfl)
  | some s => exact parseJ_val_jstr fuel pre s rest (by rw [hpre]; rfl)

theorem parseJ_val_entry (e : RelevanceScoreEntry) (b : Nat) (pre rest : List Char)
    (hpre : skipWs pre = renderEntryObj e ++ rest)
    (hb : e.metadata.length + 1 ≤ b) :
    parseJ (b + 8 + 1) PMode.val pre = some (PRes.v (entryJson e), rest) := by
  set E0 : List Char := nlc :: ("  ".toList ++ (rbc :: rest)) with hE0
  set S7 : List Char := memberSep "source_line" ++ (renderJStr e.source_line ++ E0) with hS7
  set S6 : List Char := memberSep "source_file"
    ++ (renderOptStr e.source_file ++ (',' :: nlc :: S7)) with hS6
  set S5 : List Char := memberSep "timestamp"
    ++ (renderOptStr e.timestamp ++ (',' :: nlc :: S6)) with hS5
  set S4 : List Char := memberSep "quality_score"
    ++ (renderOptDec e.quality_score ++ (',' :: nlc :: S5)) with hS4
  set S3 : List Char := memberSep "similarity_score"
    ++ (renderDec e.similarity_score ++ (',' :: nlc :: S4)) with hS3
  set S2 : List Char := memberSep "metadata"
    ++ (renderMeta e.metadata ++ (',' :: nlc :: S3)) with hS2
  set S1 : List Char := memberSep "document_content"
    ++ (renderJStr e.document_content ++ (',' :: nlc :: S2)) with hS1
  have hnorm : renderEntryObj e ++ rest = lbc :: (nlc :: S1) := by
    simp only [hS1, hS2, hS3, hS4, hS5, hS6, hS7, hE0]
    simp [renderEntryObj]
  have hsk1 : skipWs (nlc :: S1)
      = dqc :: (escapeJson "document_content".toList ++ (dqc :: (':' ::
          (' ' :: (renderJStr e.document_content ++ (',' :: nlc :: S2)))))) := by
    rw [skipWs_cons_ws nlc (by decide), hS1]
    rw [show memberSep "document_content"
          ++ (renderJStr e.document_content ++ (',' :: nlc :: S2))
        = "    ".toList ++ (dqc :: (escapeJson "document_content".toList ++ (dqc :: (':' ::
            (' ' :: (renderJStr e.document_content ++ (',' :: nlc :: S2)))))))
      from by simp [memberSep, renderJStr]]
    rw [skipWs_append_ws "    ".toList (by decide)]
    exact skipWs_cons_not dqc (by decide) _
  have hsk2 : skipWs (nlc :: S2)
      = dqc :: (escapeJson "metadata".toList ++ (dqc :: (':' ::
          (' ' :: (renderMeta e.metadata ++ (',' :: nlc :: S3)))))) := by
    rw [skipWs_cons_ws nlc (by decide), hS2]
    rw [show memberSep "metadata" ++ (renderMeta e.metadata ++ (',' :: nlc :: S3))
        = "    ".toList ++ (dqc :: (escapeJson "metadata".toList ++ (dqc :: (':' ::
            (' ' :: (renderMeta e.metadata ++ (',' :: nlc :: S3)))))))
      from by simp [memberSep, renderJStr]]
    rw [skipWs_append_ws "    ".toList (by decide)]
    exact skipWs_cons_not dqc (by decide) _
  have hsk3 : skipWs (nlc :: S3)
      = dqc :: (escapeJson "similarity_score".toList ++ (dqc :: (':' ::
          (' ' :: (renderDec e.similarity_score ++ (',' :: nlc :: S4)))))) := by
    rw [skipWs_cons_ws nlc (by decide), hS3]
    rw [show memberSep "similarity_score"
          ++ (renderDec e.similarity_score ++ (',' :: nlc :: S4))
        = "    ".toList ++ (dqc :: (escapeJson "similarity_score".toList ++ (dqc :: (':' ::
            (' ' :: (renderDec e.similarity_score ++ (',' :: nlc :: S4)))))))
      from by simp [memberSep, renderJStr]]
    rw [skipWs_append_ws "    ".toList (by decide)]
    exact skipWs_cons_not dqc (by decide) _
  have hsk4 : skipWs (nlc :: S4)
      = dqc :: (escapeJson "quality_score".toList ++ (dqc :: (':' ::
          (' ' :: (renderOptDec e.quality_score ++ (',' :: nlc :: S5)))))) := by
    rw [skipWs_cons_ws nlc (by decide), hS4]
    rw [show memberSep "quality_score"
          ++ (renderOptDec e.quality_score ++ (',' :: nlc :: S5))
        = "    ".toList ++ (dqc :: (escapeJson "quality_score".toList ++ (dqc :: (':' ::
            (' ' :: (renderOptDec e.quality_score ++ (',' :: nlc :: S5)))))))
      from by simp [memberSep, renderJStr]]
    rw [skipWs_append_ws "    ".toList (by decide)]
    exact skipWs_cons_not dqc (by decide) _
  have hsk5 : skipWs (nlc :: S5)
      = dqc :: (escapeJson "timestamp".toList ++ (dqc :: (':' ::
          (' ' :: (renderOptStr e.timestamp ++ (',' :: nlc :: S6)))))) := by
    rw [skipWs_cons_ws nlc (by decide), hS5]
    rw [show memberSep "timestamp" ++ (renderOptStr e.timestamp ++ (',' :: nlc :: S6))
        = "    ".toList ++ (dqc :: (escapeJson "timestamp".toList ++ (dqc :: (':' ::
            (' ' :: (renderOptStr e.timestamp ++ (',' :: nlc :: S6)))))))
      from by simp [memberSep, renderJStr]]
    rw [skipWs_append_ws "    ".toList (by decide)]
    exact skipWs_cons_not dqc (by decide) _
  have hsk6 : skipWs (nlc :: S6)
      = dqc :: (escapeJson "source_file".toList ++ (dqc :: (':' ::
          (' ' :: (renderOptStr e.source_file ++ (',' :: nlc :: S7)))))) := by
    rw [skipWs_cons_ws nlc (by decide), hS6]
    rw [show memberSep "source_file" ++ (renderOptStr e.source_file ++ (',' :: nlc :: S7))
        = "    ".toList ++ (dqc :: (escapeJson "source_file".toList ++ (dqc :: (':' ::
            (' ' :: (renderOptStr e.source_file ++ (',' :: nlc :: S7)))))))
      from by simp [memberSep, renderJStr]]
    rw [skipWs_append_ws "    ".toList (by decide)]
    exact skipWs_cons_not dqc (by decide) _
  have hsk7 : skipWs (nlc :: S7)
      = dqc :: (escapeJson "source_line".toList ++ (dqc :: (':' ::
          (' ' :: (renderJStr e.source_line ++ E0))))) := by
    rw [skipWs_cons_ws nlc (by decide), hS7]
    rw [show memberSep "source_line" ++ (renderJStr e.source_line ++ E0)
        = "    ".toList ++ (dqc :: (escapeJson "source_line".toList ++ (dqc :: (':' ::
            (' ' :: (renderJStr e.source_line ++ E0))))))
      from by simp [memberSep, renderJStr]]
    rw [skipWs_append_ws "    ".toList (by decide)]
    exact skipWs_cons_not dqc (by decide) _
  have hskE0 : skipWs E0 = rbc :: rest := by
    rw [hE0, skipWs_cons_ws nlc (by decide), skipWs_append_ws "  ".toList (by decide)]
    exact skipWs_cons_not rbc (by decide) _
  have hms : parseJ (b + 8) (PMode.members []) (nlc :: S1)
      = some (PRes.ms
          [("document_content".toList, JValue.jstr e.document_content),
           ("metadata".toList, JValue.jobj (e.metadata.map fun p => (p.1, JValue.jstr p.2))),
           ("similarity_score".toList, JValue.jnum (decNormJ e.similarity_score)),
           ("quality_score".toList, optDecJson e.quality_score),
           ("timestamp".toList, optStrJson e.timestamp),
           ("source_file".toList, optStrJson e.source_file),
           ("source_line".toList, JValue.jstr e.source_line)], rest) := by
    rw [show (b : Nat) + 8 = b + 6 + 1 + 1 from by omega]
    rw [parseJ_members_step (b + 6) _ "document_content".toList
      (' ' :: (renderJStr e.document_content ++ (',' :: nlc :: S2))) [] hsk1]
    rw [parseJ_val_str (b + 6) _ e.document_content (',' :: nlc :: S2)
      (skipWs_sp_jstr e.document_content (',' :: nlc :: S2))]
    simp only [skipWs_cons_not ',' (by decide)]
    rw [show (b : Nat) + 6 + 1 = b + 5 + 1 + 1 from by omega]
    rw [parseJ_members_step (b + 5) _ "metadata".toList
      (' ' :: (renderMeta e.metadata ++ (',' :: nlc :: S3))) _ hsk2]
    rw [show (b : Nat) + 5 + 1 = b + 4 + 1 + 1 from by omega]
    rw [parseJ_val_meta e.metadata (b + 4) _ (',' :: nlc :: S3)
      (skipWs_sp_meta e.metadata (',' :: nlc :: S3)) (by omega)]
    simp only [skipWs_cons_not ',' (by decide)]
    rw [parseJ_members_step (b + 4) _ "similarity_score".toList
      (' ' :: (renderDec e.similarity_score ++ (',' :: nlc :: S4))) _ hsk3]
    rw [parseJ_val_num (b + 4) _ (',' :: nlc :: S4) e.similarity_score
      (skipWs_sp_dec e.similarity_score (',' :: nlc :: S4)) (numBoundary_comma _)]
    simp only [skipWs_cons_not ',' (by decide)]
    rw [show (b : Nat) + 4 + 1 = b + 3 + 1 + 1 from by omega]
    rw [parseJ_members_step (b + 3) _ "quality_score".toList
      (' ' :: (renderOptDec e.quality_score ++ (',' :: nlc :: S5))) _ hsk4]
    rw [parseJ_val_optDec (b + 3) _ (',' :: nlc :: S5) e.quality_score
      (skipWs_sp_optDec e.quality_score (',' :: nlc :: S5)) (numBoundary_comma _)]
    simp only [skipWs_cons_not ',' (by decide)]
    rw [show (b : Nat) + 3 + 1 = b + 2 + 1 + 1 from by omega]
    rw [parseJ_members_step (b + 2) _ "timestamp".toList
      (' ' :: (renderOptStr e.timestamp ++ (',' :: nlc :: S6))) _ hsk5]
    rw [parseJ_val_optStr (b + 2) _ (',' :: nlc :: S6) e.timestamp
      (skipWs_sp_optStr e.timestamp (',' :: nlc :: S6))]
    simp only [skipWs_cons_not ',' (by decide)]
    rw [show (b : Nat) + 2 + 1 = b + 1 + 1 + 1 from by omega]
    rw [parseJ_members_step (b + 1) _ "source_file".toList
      (' ' :: (renderOptStr e.source_file ++ (',' :: nlc :: S7))) _ hsk6]
    rw [parseJ_val_optStr (b + 1) _ (',' :: nlc :: S7) e.source_file
      (skipWs_sp_optStr e.source_file (',' :: nlc :: S7))]
    simp only [skipWs_cons_not ',' (by decide)]
    rw [parseJ_members_step b _ "source_line".toList
      (' ' :: (renderJStr e.source_line ++ E0)) _ hsk7]
    rw [parseJ_val_str b _ e.source_line E0 (skipWs_sp_jstr e.source_line E0)]
    simp +decide [hskE0]
  rw [parseJ.eq_2]
  rw [hpre, hnorm]
  simp only [eq_false (by decide : ¬(lbc = dqc)), eq_false (by decide : ¬(lbc = '[')),
    eq_self_iff_true, if_true, if_false, hsk1, eq_false (by decide : ¬(dqc = rbc)),
    hms, entryJson]

theorem renderEntryObj_cons (e : RelevanceScoreEntry) :
    ∃ Y, renderEntryObj e = lbc :: Y := ⟨_, rfl⟩

theorem skipWs_entry (e : RelevanceScoreEntry) (X : List Char) :
    skipWs (renderEntryObj e ++ X) = renderEntryObj e ++ X := by
  obtain ⟨Y, hY⟩ := renderEntryObj_cons e
  rw [hY, List.cons_append]
  exact skipWs_cons_not lbc (by decide) _

theorem parseJ_elems (es : List RelevanceScoreEntry) :
    ∀ fuel (acc : List JValue) (rest : List Char), es ≠ [] →
      es.foldr (fun x a => max (x.metadata.length + 10) a + 1) 0 ≤ fuel →
      parseJ (fuel + 1) (PMode.elems acc)
        (nlc :: (renderEntries es ++ (nlc :: (']' :: rest))))
      = some (PRes.vs (acc.reverse ++ es.map entryJson), rest) := by
  induction es with
  | nil => intro _ _ _ h _; exact absurd rfl h
  | cons e tl ih =>
    intro fuel acc rest _ hfuel
    simp only [List.foldr_cons] at hfuel
    have hfe : e.metadata.length + 11 ≤ fuel := by omega
    obtain ⟨b, rfl⟩ : ∃ b, fuel = b + 8 + 1 := ⟨fuel - 9, by omega⟩
    rw [parseJ.eq_3]
    cases tl with
    | nil =>
      have hsk : skipWs (nlc :: (renderEntries [e] ++ (nlc :: (']' :: rest))))
          = renderEntryObj e ++ (nlc :: (']' :: rest)) := by
        rw [skipWs_cons_ws nlc (by decide)]
        rw [show renderEntries [e] ++ (nlc :: (']' :: rest))
            = "  ".toList ++ (renderEntryObj e ++ (nlc :: (']' :: rest)))
          from by simp [renderEntries]]
        rw [skipWs_append_ws "  ".toList (by decide)]
        exact skipWs_entry e _
      rw [parseJ_val_entry e b _ (nlc :: (']' :: rest)) hsk (by omega)]
      have hskb : skipWs (nlc :: (']' :: rest)) = ']' :: rest := by
        rw [skipWs_cons_ws nlc (by decide)]
        exact skipWs_cons_not ']' (by decide) _
      simp +decide [hskb]
    | cons f fs =>
      have hsk : skipWs (nlc :: (renderEntries (e :: f :: fs) ++ (nlc :: (']' :: rest))))
          = renderEntryObj e
            ++ (',' :: nlc :: (renderEntries (f :: fs) ++ (nlc :: (']' :: rest)))) := by
        rw [skipWs_cons_ws nlc (by decide)]
        rw [show renderEntries (e :: f :: fs) ++ (nlc :: (']' :: rest))
            = "  ".toList ++ (renderEntryObj e
                ++ (',' :: nlc :: (renderEntries (f :: fs) ++ (nlc :: (']' :: rest)))))
          from by simp [renderEntries]]
        rw [skipWs_append_ws "  ".toList (by decide)]
        exact skipWs_entry e _
      rw [parseJ_val_entry e b _
        (',' :: nlc :: (renderEntries (f :: fs) ++ (nlc :: (']' :: rest)))) hsk (by omega)]
      simp only [skipWs_cons_not ',' (by decide)]
      rw [ih (b + 8) (entryJson e :: acc) rest (by simp) (by omega)]
      simp

theorem renderMetaMembers_length (ps : List (List Char × List Char)) :
    ps.length ≤ (renderMetaMembers ps).length := by
  induction ps with
  | nil => simp [renderMetaMembers]
  | cons p tail ih =>
    cases tail with
    | nil => simp [renderMetaMembers]
    | cons q qs =>
      obtain ⟨k, v⟩ := p
      simp only [renderMetaMembers, List.length_append, List.length_cons] at ih ⊢
      omega

theorem renderMeta_length (ps : List (List Char × List Char)) :
    ps.length ≤ (renderMeta ps).length := by
  cases ps with
  | nil => simp [renderMeta]
  | cons p tail =>
    have h := renderMetaMembers_length (p :: tail)
    simp only [renderMeta, List.length_cons, List.length_append] at h ⊢
    omega

theorem renderEntryObj_length (e : RelevanceScoreEntry) :
    e.metadata.length + 12 ≤ (renderEntryObj e).length := by
  have h := renderMeta_length e.metadata
  simp only [renderEntryObj, List.length_cons, List.length_append] at h ⊢
  omega

theorem renderEntries_length (es : List RelevanceScoreEntry) :
    es.foldr (fun x a => max (x.metadata.length + 10) a + 1) 0 ≤ (renderEntries es).length := by
  induction es with
  | nil => simp [renderEntries]
  | cons e tl ih =>
    have he := renderEntryObj_length e
    cases tl with
    | nil =>
      simp only [renderEntries, List.foldr_cons, List.foldr_nil, List.length_append] at ih ⊢
      omega
    | cons f fs =>
      simp only [renderEntries, List.foldr_cons, List.length_append, List.length_cons] at ih ⊢
      omega

theorem parseJson_format_as_json (es : List RelevanceScoreEntry) (hne : es ≠ []) :
    parseJson (format_as_json es) = some (JValue.jarr (es.map entryJson)) := by
  obtain ⟨e, tl, rfl⟩ : ∃ e tl, es = e :: tl := by
    cases es with
    | nil => exact absurd rfl hne
    | cons e tl => exact ⟨e, tl, rfl⟩
  have hfmt : format_as_json (e :: tl)
      = '[' :: (nlc :: (renderEntries (e :: tl) ++ (nlc :: (']' :: [])))) := by
    simp [format_as_json]
  have hlen : (e :: tl).foldr (fun x a => max (x.metadata.length + 10) a + 1) 0 + 3
      ≤ (format_as_json (e :: tl)).length := by
    have h := renderEntries_length (e :: tl)
    rw [hfmt]
    simp only [List.length_cons, List.length_append]
    omega
  have hsk0 : skipWs (format_as_json (e :: tl))
      = '[' :: (nlc :: (renderEntries (e :: tl) ++ (nlc :: (']' :: [])))) := by
    rw [hfmt]
    exact skipWs_cons_not '[' (by decide) _
  have hskt : ∃ Y, skipWs (nlc :: (renderEntries (e :: tl) ++ (nlc :: (']' :: []))))
      = lbc :: Y := by
    cases tl with
    | nil =>
      rw [skipWs_cons_ws nlc (by decide)]
      rw [show renderEntries [e] ++ (nlc :: (']' :: []))
          = "  ".toList ++ (renderEntryObj e ++ (nlc :: (']' :: [])))
        from by simp [renderEntries]]
      rw [skipWs_append_ws "  ".toList (by decide), skipWs_entry e _]
      obtain ⟨Y, hY⟩ := renderEntryObj_cons e
      exact ⟨Y ++ (nlc :: (']' :: [])), by rw [hY]; simp⟩
    | cons f fs =>
      rw [skipWs_cons_ws nlc (by decide)]
      rw [show renderEntries (e :: f :: fs) ++ (nlc :: (']' :: []))
          = "  ".toList ++ (renderEntryObj e
              ++ (',' :: nlc :: (renderEntries (f :: fs) ++ (nlc :: (']' :: [])))))
        from by simp [renderEntries]]
      rw [skipWs_append_ws "  ".toList (by decide), skipWs_entry e _]
      obtain ⟨Y, hY⟩ := renderEntryObj_cons e
      exact ⟨Y ++ (',' :: nlc :: (renderEntries (f :: fs) ++ (nlc :: (']' :: [])))),
        by rw [hY]; simp⟩
  obtain ⟨Y, hY⟩ := hskt
  obtain ⟨L, hL⟩ : ∃ L, (format_as_json (e :: tl)).length = L + 1 := by
    rw [hfmt]; exact ⟨_, rfl⟩
  have hLbound : (e :: tl).foldr (fun x a => max (x.metadata.length + 10) a + 1) 0 ≤ L := by
    omega
  have hval : parseJ ((format_as_json (e :: tl)).length + 1) PMode.val
      (format_as_json (e :: tl))
      = some (PRes.v (JValue.jarr ((e :: tl).map entryJson)), []) := by
    rw [parseJ.eq_2, hsk0]
    rw [hL]
    simp only [eq_false (by decide : ¬('[' = dqc)), eq_self_iff_true, if_true, if_false,
      hY, eq_false (by decide : ¬(lbc = ']'))]
    rw [parseJ_elems (e :: tl) L [] [] (by simp) hLbound]
    simp only [List.reverse_nil, List.nil_append, List.map_cons]
    split
    · rename_i r heq
      injection heq with h1 h2
      exact absurd h1 (by decide)
    · rfl
  rw [parseJson, hval]
  simp [skipWs]

theorem isPrefixOf_append_left :
    ∀ (p a b : List Char), p.isPrefixOf a = true → p.isPrefixOf (a ++ b) = true := by
  intro p
  induction p with
  | nil => intro a b _; simp [List.isPrefixOf]
  | cons x xs ih =>
    intro a b h
    cases a with
    | nil => simp [List.isPrefixOf] at h
    | cons y ys =>
      simp only [List.isPrefixOf, List.cons_append, Bool.and_eq_true, beq_iff_eq] at h ⊢
      exact ⟨h.1, ih ys b h.2⟩

/-- C10: round-trip of the interchange serialization.  For every non-empty
entry list, `format_as_csv` output contains the literal header token
`similarity_score`; and re-parsing the `format_as_json` output as JSON yields
an array with exactly one element per input entry, whose `i`-th element is the
JSON object of the `i`-th entry and carries a `similarity_score` number whose
value equals that entry's similarity score. -/
theorem claim_C10 (entries : List RelevanceScoreEntry) (hne : entries ≠ []) :
    containsSub (format_as_csv entries) "similarity_score".toList = true ∧
    ∃ vs : List JValue,
      parseJson (format_as_json entries) = some (JValue.jarr vs) ∧
      vs.length = entries.length ∧
      ∀ i, i < entries.length →
        ∃ e d, entries[i]? = some e ∧ vs[i]? = some (entryJson e) ∧
          (entryJson e).getField "similarity_score".toList = some (JValue.jnum d) ∧
          d.toRat = e.similarity_score.toRat := by
  constructor
  · obtain ⟨e, tl, rfl⟩ : ∃ e tl, entries = e :: tl := by
      cases entries with
      | nil => exact absurd rfl hne
      | cons e tl => exact ⟨e, tl, rfl⟩
    refine containsSub_of_prefix_drop _ _ 29 ?_
    rw [show format_as_csv (e :: tl) = csvHeader ++ (e :: tl).flatMap csvRow from rfl]
    rw [List.drop_append_eq_append_drop]
    rw [show (29 - csvHeader.length) = 0 from by decide, List.drop_zero]
    exact isPrefixOf_append_left _ _ _ (by decide)
  · refine ⟨entries.map entryJson, parseJson_format_as_json entries hne, by simp, ?_⟩
    intro i hi
    refine ⟨entries[i], decNormJ (entries[i]).similarity_score,
      List.getElem?_eq_getElem hi, ?_, ?_, decNormJ_toRat _⟩
    · rw [List.getElem?_map, List.getElem?_eq_getElem hi]
      rfl
    · simp +decide [entryJson, JValue.getField, List.find?]

theorem claim_C10_witness :
    ([c1Entry] : List RelevanceScoreEntry) ≠ [] ∧
    (containsSub (format_as_csv [c1Entry]) "similarity_score".toList = true ∧
     ∃ vs : List JValue,
       parseJson (format_as_json [c1Entry]) = some (JValue.jarr vs) ∧
       vs.length = [c1Entry].length ∧
       ∀ i, i < [c1Entry].length →
         ∃ e d, [c1Entry][i]? = some e ∧ vs[i]? = some (entryJson e) ∧
           (entryJson e).getField "similarity_score".toList = some (JValue.jnum d) ∧
           d.toRat = e.similarity_score.toRat) :=
  ⟨List.cons_ne_nil c1Entry [], claim_C10 [c1Entry] (List.cons_ne_nil c1Entry [])⟩
